import Mathlib

/-!
# Verification of the Kaiten webhook bot (event aggregation and scheduled reporting)

Shallow embedding of the core of `app.py` and `monthly_reports.py`:

* calendar helpers (`is_weekend`, `is_workday`, `prev_workday`,
  `first_workday_of_month`, `prev_month_range`, `month_key`);
* the dated move store: pruning (`_prune_old_dates`), persistence round trip
  (`save_store` / `load_store`) over a small JSON value type;
* the webhook handler (`kaiten_webhook`) with identity extraction
  (`extract_card_key`) and attribute decoding;
* the daily metric engine (`build_report_totals`);
* the monthly roll-up (`_collect_completed_last_event`,
  `compute_month_like_stats`, `_add_stats`, `sum_aggregates_ytd`) and the
  guarded monthly send loop body (`monthly_iter`).

Modelling conventions:

* Python `date` objects are represented by their proleptic-Gregorian ordinal
  (`date.toordinal`), an integer; `date` comparison and `timedelta(days = n)`
  arithmetic coincide with integer comparison and addition on ordinals.
  `weekday()` of ordinal `o` is `(o - 1) % 7` (ordinal 1 is a Monday).
* The configured holiday set (a set of `YYYY-MM-DD` strings in the source) is
  modelled as a `Finset ℤ` of the ordinals of those dates; `date_to_str` is
  injective on dates, so membership tests agree.
* JSON values carried through persistence are modelled by the inductive `JVal`;
  dictionaries are association lists in insertion order, and Python dict
  assignment is `updA` (update in place, else append), dict lookup is `lookupA`.
* Machine integers do not occur: Python integers are unbounded, so `ℤ`/`ℕ` are
  exact models.
-/

/-! ## Python-ish scalar values

`PyVal` models the JSON scalars that the webhook handler inspects
(`int`, `str`, `None`).  `pyTruthy` is Python truthiness, `pyStr` is `str(...)`,
`pyToInt` is `int(...)` returning `none` where Python raises
(`ValueError`/`TypeError`).  For the custom-property fields, which may also be a
list (`[93406]`), `PropVal` adds the list case. -/

inductive PyVal where
  | vint (n : Int)
  | vstr (s : String)
  | vnone
deriving DecidableEq

def pyTruthy : PyVal → Bool
  | .vint n => n ≠ 0
  | .vstr s => s ≠ ""
  | .vnone => false

def pyStr : PyVal → String
  | .vint n => toString n
  | .vstr s => s
  | .vnone => "None"

/-- `int(s)` on a string: optional surrounding whitespace, an optional sign, a
nonempty run of ASCII digits.  (Unicode digits and PEP 515 underscores are
outside the modelled alphabet.) -/
def parseIntStr (s : String) : Option Int :=
  let t := s.trim
  let core := if t.startsWith "-" ∨ t.startsWith "+" then t.drop 1 else t
  if core.length ≥ 1 ∧ core.all Char.isDigit then
    let n : Int := core.foldl (fun a c => a * 10 + (c.toNat - '0'.toNat : Int)) 0
    some (if t.startsWith "-" then -n else n)
  else none

def pyToInt : PyVal → Option Int
  | .vint n => some n
  | .vstr s => parseIntStr s
  | .vnone => none

inductive PropVal where
  | single (v : PyVal)
  | plist (l : List PyVal)
deriving DecidableEq

def propTruthy : PropVal → Bool
  | .single v => pyTruthy v
  | .plist l => l ≠ []

def propToInt : PropVal → Option Int
  | .single v => pyToInt v
  | .plist _ => none

/-! ## Calendar model (`app.py` / `monthly_reports.py` date helpers) -/

/-- Gregorian leap year, as `calendar.isleap` / `datetime`. -/
def isLeap (y : Nat) : Bool := (y % 4 = 0 ∧ y % 100 ≠ 0) ∨ y % 400 = 0

def daysInMonth (y m : Nat) : Nat :=
  if m = 2 then (if isLeap y then 29 else 28)
  else if m = 4 ∨ m = 6 ∨ m = 9 ∨ m = 11 then 30
  else 31

/-- Days in months `1 .. m-1` of year `y`. -/
def daysBeforeMonth (y m : Nat) : Nat :=
  (List.range (m - 1)).foldl (fun a i => a + daysInMonth y (i + 1)) 0

/-- `date(y, m, d).toordinal()`: ordinal 1 is 0001-01-01. -/
def toOrdinal (y m d : Nat) : Nat :=
  365 * (y - 1) + (y - 1) / 4 - (y - 1) / 100 + (y - 1) / 400 + daysBeforeMonth y m + d

/-- A calendar date as the Python `date` triple. -/
structure Date where
  year : Nat
  month : Nat
  day : Nat
deriving DecidableEq

def Date.toOrd (d : Date) : Int := (toOrdinal d.year d.month d.day : Int)

/-- `d.weekday()`: Monday = 0 … Sunday = 6, computed from the ordinal. -/
def weekday (o : Int) : Int := (o - 1) % 7

/-- `is_weekend` (app.py line 286): Saturday or Sunday. -/
def is_weekend (o : Int) : Bool := weekday o ≥ 5

/-- `is_workday` (app.py line 294): not a weekend and not a configured holiday.
The holiday set holds day ordinals (see the module conventions). -/
def is_workday (holidays : Finset Int) (o : Int) : Prop :=
  (¬ is_weekend o) ∧ o ∉ holidays

instance (holidays : Finset Int) (o : Int) : Decidable (is_workday holidays o) := by
  unfold is_workday; infer_instance

/-- In any descending run of days below `d` there is a workday: among the
`card + 1` Mondays `d - 1 - w - 7j` not all can be holidays. -/
def exists_workday_below (H : Finset Int) (d : Int) :
    ∃ n : Nat, is_workday H (d - 1 - n) := by
  by_contra hno
  push_neg at hno
  -- the largest Monday ≤ d - 1
  set a : Int := d - 1 with ha
  set w : Int := (a - 1) % 7 with hw
  have hw0 : 0 ≤ w := Int.emod_nonneg _ (by norm_num)
  -- each candidate Monday is not a weekend
  have hmon : ∀ j : Nat, weekday (a - w - 7 * j) = 0 := by
    intro j
    unfold weekday
    omega
  have hnotwe : ∀ j : Nat, ¬ is_weekend (a - w - 7 * j) := by
    intro j
    simp [is_weekend, hmon j]
  -- hence each candidate Monday must be a holiday
  have hhol : ∀ j : Nat, (a - w - 7 * j) ∈ H := by
    intro j
    have hne := hno (w.toNat + 7 * j)
    have hcast : ((w.toNat + 7 * j : Nat) : Int) = w + 7 * j := by
      push_cast [Int.toNat_of_nonneg hw0]; ring
    rw [hcast] at hne
    have : d - 1 - (w + 7 * j) = a - w - 7 * j := by omega
    rw [this] at hne
    by_cases hmem : (a - w - 7 * j) ∈ H
    · exact hmem
    · exact absurd ⟨hnotwe j, hmem⟩ hne
  -- the candidates are pairwise distinct, contradicting |H| < |H| + 1
  have hinj : Set.InjOn (fun j : Nat => a - w - 7 * (j : Int)) (Finset.range (H.card + 1)) := by
    intro i _ j _ hij
    simp only at hij
    omega
  have hmaps : ∀ j ∈ Finset.range (H.card + 1), (a - w - 7 * (j : Int)) ∈ H :=
    fun j _ => hhol j
  have := Finset.card_le_card_of_injOn _ hmaps hinj
  rw [Finset.card_range] at this
  omega

/-- Dually, above any day there is a workday. -/
def exists_workday_from (H : Finset Int) (s : Int) :
    ∃ n : Nat, is_workday H (s + n) := by
  by_contra hno
  push_neg at hno
  set t : Int := (1 - s) % 7 with ht
  have ht0 : 0 ≤ t := Int.emod_nonneg _ (by norm_num)
  have hmon : ∀ j : Nat, weekday (s + t + 7 * j) = 0 := by
    intro j
    unfold weekday
    omega
  have hnotwe : ∀ j : Nat, ¬ is_weekend (s + t + 7 * j) := by
    intro j
    simp [is_weekend, hmon j]
  have hhol : ∀ j : Nat, (s + t + 7 * j) ∈ H := by
    intro j
    have hne := hno (t.toNat + 7 * j)
    have hcast : ((t.toNat + 7 * j : Nat) : Int) = t + 7 * j := by
      push_cast [Int.toNat_of_nonneg ht0]; ring
    rw [hcast] at hne
    have : s + (t + 7 * j) = s + t + 7 * j := by ring
    rw [this] at hne
    by_cases hmem : (s + t + 7 * j) ∈ H
    · exact hmem
    · exact absurd ⟨hnotwe j, hmem⟩ hne
  have hinj : Set.InjOn (fun j : Nat => s + t + 7 * (j : Int)) (Finset.range (H.card + 1)) := by
    intro i _ j _ hij
    simp only at hij
    omega
  have hmaps : ∀ j ∈ Finset.range (H.card + 1), (s + t + 7 * (j : Int)) ∈ H :=
    fun j _ => hhol j
  have := Finset.card_le_card_of_injOn _ hmaps hinj
  rw [Finset.card_range] at this
  omega

/-- `prev_workday` (app.py line 298): step back one day, then keep stepping
back while the day is not a workday; written as the least offset, which is
exactly what the while loop computes.  Totality (the loop terminates for every
finite holiday set) is `exists_workday_below`. -/
def prev_workday (H : Finset Int) (d : Int) : Int :=
  d - 1 - (Nat.find (exists_workday_below H d))

/-- `first_workday_of_month` (monthly_reports.py line 67): start at the first
of the month, step forward while not a workday. -/
def first_workday_of_month (H : Finset Int) (year month : Nat) : Int :=
  (toOrdinal year month 1 : Int) + (Nat.find (exists_workday_from H (toOrdinal year month 1 : Int)))

/-! ## Association lists: Python `dict` in insertion order -/

/-- Python dict lookup `d.get(k)`. -/
def lookupA {β : Type} (l : List (String × β)) (k : String) : Option β :=
  match l with
  | [] => none
  | (k', v) :: t => if k' = k then some v else lookupA t k

/-- Python dict assignment `d[k] = v`: overwrite in place, else append. -/
def updA {β : Type} (l : List (String × β)) (k : String) (v : β) : List (String × β) :=
  match l with
  | [] => [(k, v)]
  | (k', v') :: t => if k' = k then (k, v) :: t else (k', v') :: updA t k v

def keysA {β : Type} (l : List (String × β)) : List String := l.map Prod.fst

/-! ## Date-key parsing and pruning (`_prune_old_dates`, app.py line 309)

`datetime.strptime(s, "%Y-%m-%d")` accepts `A-B-C` where `A` is 1–4 ASCII
digits, `B` and `C` are 1–2 ASCII digits (the `\d` alternations of the
generated regex, anchored at both ends), and the triple must be a valid
calendar date (`MINYEAR = 1`; a 4-digit year is automatically `≤ 9999`). -/

def parse_date_key (s : String) : Option Date :=
  match s.splitOn "-" with
  | [ys, ms, ds] =>
    if 1 ≤ ys.length ∧ ys.length ≤ 4 ∧ ys.all Char.isDigit ∧
       1 ≤ ms.length ∧ ms.length ≤ 2 ∧ ms.all Char.isDigit ∧
       1 ≤ ds.length ∧ ds.length ≤ 2 ∧ ds.all Char.isDigit then
      let y := ys.foldl (fun a c => a * 10 + (c.toNat - '0'.toNat)) 0
      let m := ms.foldl (fun a c => a * 10 + (c.toNat - '0'.toNat)) 0
      let d := ds.foldl (fun a c => a * 10 + (c.toNat - '0'.toNat)) 0
      if 1 ≤ y ∧ 1 ≤ m ∧ m ≤ 12 ∧ 1 ≤ d ∧ d ≤ daysInMonth y m then
        some ⟨y, m, d⟩
      else none
    else none
  | _ => none

/-- The parsed date of a store key, as an ordinal (used for the `d < cutoff`
comparison, which on Python `date`s is ordinal comparison). -/
def parse_date_ord (s : String) : Option Int :=
  (parse_date_key s).map Date.toOrd

/-- `_prune_old_dates` (app.py line 309): drop every key that parses as a date
strictly before `now − retention` days; keys that fail to parse are kept
(the `except: continue`).  Generic in the bucket type: the function only looks
at keys.  `nowOrd` is `now_nsk().date()` as an ordinal. -/
def _prune_old_dates {β : Type} (retention : Nat) (nowOrd : Int) (s : List (String × β)) :
    List (String × β) :=
  s.filter fun kv =>
    match parse_date_ord kv.1 with
    | none => true
    | some d => if d < nowOrd - retention then false else true

/-! ## Persistence round trip (`save_store` line 349 / `load_store` line 320)

The durable file is JSON; `JVal` models parsed JSON values.  The in-memory
store maps date keys to day dicts that always have the single key `"moves"`
holding a list (this is how both the handler and `load_store` build them), so
it is modelled as `List (String × List JVal)` with each move record kept as an
opaque JSON value — `load_store` validates only the two outer layers. -/

inductive JVal where
  | jnull
  | jbool (b : Bool)
  | jnum (n : Int)
  | jstr (s : String)
  | jarr (l : List JVal)
  | jobj (l : List (String × JVal))

/-- Lookup in a parsed JSON object: `json.loads` builds the dict by sequential
insertion, so a duplicated key keeps its last value. -/
def jlookup (fields : List (String × JVal)) (k : String) : Option JVal :=
  (fields.reverse.find? (fun p => p.1 = k)).map Prod.snd

/-- The JSON text written by `save_store` (app.py line 349), as a parsed value:
prune, then dump the store, each day as `{"moves": [...]}`. -/
def save_store_content (retention : Nat) (nowOrd : Int)
    (store : List (String × List JVal)) : JVal :=
  .jobj ((_prune_old_dates retention nowOrd store).map fun kv =>
    (kv.1, .jobj [("moves", .jarr kv.2)]))

/-- `load_store` (app.py line 320) applied to a parsed file: a non-dict file
yields the empty store; a non-dict day entry is skipped; a day whose `"moves"`
is present but not a list is skipped; a missing `"moves"` defaults to `[]`. -/
def load_store (raw : JVal) : List (String × List JVal) :=
  match raw with
  | .jobj entries =>
    entries.foldl (fun res kv =>
      match kv.2 with
      | .jobj fields =>
        match jlookup fields "moves" with
        | none => updA res kv.1 []
        | some (.jarr ms) => updA res kv.1 ms
        | some _ => res
      | _ => res) []
  | _ => []

/-! ## Move records

A normalized move record as appended by the webhook handler (app.py line 529).
Stored JSON may omit fields, so each field is optional; readers access them
with `dict.get` and defaults, which the computations below reproduce. -/

structure Move where
  card_id : Option String
  title : Option String
  person_type : Option String
  submission_method : Option String
  from_column_id : Option Int
  from_column : Option String
  to_column_id : Option Int
  to_column : Option String
  user : Option String
  timestamp : Option String
deriving DecidableEq

/-! ## Metric engine (`build_report_totals`, app.py line 561) -/

/-- The nine metric keys of `REPORT_ORDER` / `METRICS` (app.py lines 223-272). -/
inductive Metric where
  | primary_intake
  | rso_requests_done
  | gpzu_prepared
  | refusals_prepared
  | head_checked
  | gabidullina_checked
  | gpzu_signed
  | isogd_gpzu
  | isogd_refusals
deriving DecidableEq

/-- `METRICS[k]["ids"]`: the destination-column target set of each metric. -/
def metric_ids : Metric → Finset Int
  | .primary_intake => {5474956, 5474950}
  | .rso_requests_done => {5485743}
  | .gpzu_prepared => {5474974}
  | .refusals_prepared => {5577124}
  | .head_checked => {5474975}
  | .gabidullina_checked => {5542289, 5577124}
  | .gpzu_signed => {5577161}
  | .isogd_gpzu => {5474978}
  | .isogd_refusals => {5474969}

/-- One move of the inner loop of `build_report_totals` (app.py line 581):
skip records with a falsy `card_id` or `to_column_id`, otherwise add the card
to the accumulator set of every metric whose target set holds the destination
column. -/
def metric_step (acc : Metric → Finset String) (mv : Move) : Metric → Finset String :=
  match mv.card_id, mv.to_column_id with
  | some cid, some col =>
    if cid ≠ "" ∧ col ≠ 0 then
      fun mk => if col ∈ metric_ids mk then insert cid (acc mk) else acc mk
    else acc
  | _, _ => acc

/-- `build_report_totals` (app.py line 561): per metric, the number of distinct
`card_id`s among the day's moves whose destination lies in the metric's target
set.  The store is the date-keyed dict; a missing date yields `{}`. -/
def day_moves (store : List (String × List Move)) (date_str : String) : List Move :=
  match lookupA store date_str with
  | some ms => ms
  | none => []

def build_report_totals (store : List (String × List Move)) (date_str : String) :
    Metric → Nat :=
  fun mk => (((day_moves store date_str).foldl metric_step (fun _ => ∅)) mk).card

/-- The qualifying-card projection used to state distinctness: the `card_id` of
a move that survives the falsy checks and targets metric `mk`. -/
def metric_qual (mk : Metric) (mv : Move) : Option String :=
  match mv.card_id, mv.to_column_id with
  | some cid, some col =>
    if cid ≠ "" ∧ col ≠ 0 ∧ col ∈ metric_ids mk then some cid else none
  | _, _ => none

/-! ## Identity extraction (`extract_card_key`, app.py line 375) -/

structure OldObj where
  id : Option PyVal
  uid : Option PyVal
  column_id : Option PyVal
  title : Option PyVal
  person_type_prop : Option PropVal
  submission_method_prop : Option PropVal
deriving DecidableEq

structure ChangesObj where
  column_id : Option PyVal
  card_id : Option PyVal
  title : Option PyVal
deriving DecidableEq

structure CardObj where
  id : Option PyVal
  uid : Option PyVal
  title : Option PyVal
deriving DecidableEq

structure AuthorObj where
  full_name : Option String
  username : Option String
deriving DecidableEq

/-- `data` of a `card:update` envelope; absent sub-objects are the empty dict,
i.e. the all-`none` record (`data.get("old", {})` etc.).  The two custom
properties live in `old.properties` under ids `id_270916` / `id_270924`. -/
structure PData where
  old : OldObj
  card_id : Option PyVal
  id : Option PyVal
  changes : ChangesObj
  card : CardObj
  author : AuthorObj
deriving DecidableEq

structure Body where
  event : Option String
  data : PData
deriving DecidableEq

/-- A key that is present with a truthy value (`"id" in old and old["id"]`). -/
def truthyOpt (o : Option PyVal) : Option PyVal :=
  match o with
  | some v => if pyTruthy v then some v else none
  | none => none

/-- `if card:` — the nested card dict is truthy when nonempty (the modelled
fields stand for its keys). -/
def cardNonempty (c : CardObj) : Bool :=
  c.id.isSome ∨ c.uid.isSome ∨ c.title.isSome

/-- `extract_card_key` (app.py line 375): ordered candidate chain
`old.id`, `old.uid` (prefixed `uid_`), `data.card_id`, `data.id`,
`changes.card_id`, then `card.id` / `card.uid` when the card dict is truthy;
`None` (no fabricated identity) when all fail. -/
def extract_card_key (data : PData) : Option String :=
  match truthyOpt data.old.id with
  | some v => some (pyStr v)
  | none =>
  match truthyOpt data.old.uid with
  | some v => some ("uid_" ++ pyStr v)
  | none =>
  match truthyOpt data.card_id with
  | some v => some (pyStr v)
  | none =>
  match truthyOpt data.id with
  | some v => some (pyStr v)
  | none =>
  match truthyOpt data.changes.card_id with
  | some v => some (pyStr v)
  | none =>
  if cardNonempty data.card then
    match truthyOpt data.card.id with
    | some v => some (pyStr v)
    | none =>
      match truthyOpt data.card.uid with
      | some v => some (pyStr v)
      | none => none
  else none

/-- First non-`none` element of a candidate list. -/
def first_some : List (Option String) → Option String
  | [] => none
  | o :: t =>
    match o with
    | some s => some s
    | none => first_some t

/-- The candidate chain of `extract_card_key` in source order, as a list. -/
def extract_candidates (data : PData) : List (Option String) :=
  [ (truthyOpt data.old.id).map pyStr,
    (truthyOpt data.old.uid).map (fun v => "uid_" ++ pyStr v),
    (truthyOpt data.card_id).map pyStr,
    (truthyOpt data.id).map pyStr,
    (truthyOpt data.changes.card_id).map pyStr,
    (truthyOpt data.card.id).map pyStr,
    (truthyOpt data.card.uid).map pyStr ]

/-- Modelled from the claim wording of C2 only (not from the source): the
candidate order asserted by the specification — previous-state id, previous-
state unique id, event-level card id, nested card object's id / unique id,
event-level generic id. -/
def extract_card_key_claim_order (data : PData) : Option String :=
  first_some
    [ (truthyOpt data.old.id).map pyStr,
      (truthyOpt data.old.uid).map (fun v => "uid_" ++ pyStr v),
      (truthyOpt data.card_id).map pyStr,
      (truthyOpt data.card.id).map pyStr,
      (truthyOpt data.card.uid).map pyStr,
      (truthyOpt data.id).map pyStr ]

/-! ## Attribute decoding (app.py lines 112-184) -/

/-- `PERSON_TYPE_VALUES` (app.py line 100). -/
def person_type_values (n : Int) : Option String :=
  if n = 93406 then some "Физическое лицо"
  else if n = 93407 then some "Юридическое лицо"
  else none

/-- `SUBMISSION_METHOD_VALUES` (app.py line 106). -/
def submission_method_values (n : Int) : Option String :=
  if n = 93413 then some "ЕПГУ"
  else if n = 93414 then some "МФЦ"
  else if n = 93415 then some "Личный приём"
  else none

/-- `decode_person_type` (app.py line 112). -/
def decode_person_type (value : PropVal) : String :=
  let value := match value with
    | .plist (x :: _) => PropVal.single x
    | w => w
  if ¬ propTruthy value then "Не указано"
  else match propToInt value with
    | none => "Неизвестно"
    | some n => (person_type_values n).getD ("ID:" ++ toString n)

/-- `decode_submission_method` (app.py line 135). -/
def decode_submission_method (value : PropVal) : String :=
  let value := match value with
    | .plist (x :: _) => PropVal.single x
    | w => w
  if ¬ propTruthy value then "Не указано"
  else match propToInt value with
    | none => "Неизвестно"
    | some n => (submission_method_values n).getD ("ID:" ++ toString n)

/-- `decode_card_properties` (app.py line 158) for the two known property ids;
an absent key yields "Не указано". -/
def decode_card_properties (pt sm : Option PropVal) : String × String :=
  ( match pt with
    | some v => decode_person_type v
    | none => "Не указано",
    match sm with
    | some v => decode_submission_method v
    | none => "Не указано" )

/-- `COLUMN_NAMES` (app.py line 190). -/
def column_names (n : Int) : Option String :=
  if n = 5474955 then some "Входящая проверка"
  else if n = 5474956 then some "Запросить ТОПО"
  else if n = 5524513 then some "Ожидание ТОПО"
  else if n = 5474972 then some "Запросить ТУ у РСО"
  else if n = 5485743 then some "WIP ОЖИДАНИЕ"
  else if n = 5474973 then some "Подготовить ГПЗУ"
  else if n = 5474974 then some "Проверка начальника отдела"
  else if n = 5474975 then some "Финализация (добавление РСО,регистрация)"
  else if n = 5542289 then some "Проверка Габидулина Р.Р. (градпланы)"
  else if n = 5474976 then some "Подписание"
  else if n = 5577161 then some "Внести в ГИСОГД (градпланы)"
  else if n = 5474978 then some "Внести в ИСОГД и архив"
  else if n = 5474950 then some "Подготовить отказ"
  else if n = 5577124 then some "Проверка Габидулина Р.Р. (отказы)"
  else if n = 5474965 then some "Внести в ГИСОГД (отказы)"
  else if n = 5474969 then some "Внести в ИСОГД"
  else none

/-- `get_column_name` (app.py line 212) on an integer id. -/
def get_column_name (n : Int) : String :=
  (column_names n).getD ("Колонка " ++ toString n)

/-- `extract_card_title` (app.py line 436): `old.title`, then `card.title`,
then `changes.title`, truncated to 200 characters, else "Без названия". -/
def extract_card_title (data : PData) : String :=
  match truthyOpt data.old.title with
  | some v => (pyStr v).take 200
  | none =>
  match truthyOpt data.card.title with
  | some v => (pyStr v).take 200
  | none =>
  match truthyOpt data.changes.title with
  | some v => (pyStr v).take 200
  | none => "Без названия"

/-! ## The webhook handler (`kaiten_webhook`, app.py line 462) -/

/-- `store.setdefault(date_key, {"moves": []})` followed by
`moves.append(record)` on the in-memory store. -/
def store_append (s : List (String × List Move)) (k : String) (rec : Move) :
    List (String × List Move) :=
  match lookupA s k with
  | some ms => updA s k (ms ++ [rec])
  | none => s ++ [(k, [rec])]

/-- `kaiten_webhook` (app.py line 462) as a function of the parsed body, the
current clock (`nowOrd` = today's ordinal; `date_key` / `ts` its rendered date
key and ISO timestamp) and the in-memory store.  Returns the store after the
request plus the acknowledgement flag (`{"ok": True}` — every return path in
the source acknowledges success).  On the success path the handler appends the
move record and persists, and `save_store` prunes the in-memory store first
(app.py line 355). -/
def kaiten_webhook (retention : Nat) (nowOrd : Int) (date_key ts : String)
    (body : Body) (store : List (String × List Move)) :
    List (String × List Move) × Bool :=
  if body.event ≠ some "card:update" then (store, true)
  else
    let data := body.data
    match data.changes.column_id with
    | none => (store, true)   -- "column_id" not in changes
    | some newRaw =>
      match extract_card_key data with
      | none => (store, true) -- unresolvable identity: logged, dropped
      | some card_id =>
        -- int(new_column_id); int(old_column_id) if truthy
        match pyToInt newRaw with
        | none => (store, true)
        | some new_column_id =>
          let oldConv : Option (Option Int) :=
            match data.old.column_id with
            | none => some none
            | some ov =>
              if pyTruthy ov then
                match pyToInt ov with
                | none => none
                | some o => some (some o)
              else some none
          match oldConv with
          | none => (store, true)
          | some old_column_id =>
            let decoded := decode_card_properties data.old.person_type_prop
              data.old.submission_method_prop
            let record : Move :=
              { card_id := some card_id,
                title := some (extract_card_title data),
                person_type := some decoded.1,
                submission_method := some decoded.2,
                from_column_id := old_column_id,
                from_column := some (match old_column_id with
                  | some o => get_column_name o
                  | none => "Неизвестно"),
                to_column_id := some new_column_id,
                to_column := some (get_column_name new_column_id),
                user := some ((data.author.full_name.filter (· ≠ "")).getD
                  ((data.author.username.filter (· ≠ "")).getD
                    "Неизвестный пользователь")),
                timestamp := some ts }
            (_prune_old_dates retention nowOrd (store_append store date_key record), true)

/-! ## Monthly roll-up (`monthly_reports.py`) -/

/-- Terminal columns (monthly_reports.py lines 36-37). -/
def POSITIVE_TO_COLUMN_IDS : Finset Int := {5474978}

def REFUSAL_TO_COLUMN_IDS : Finset Int := {5474969}

def PERSON_PHYS : String := "Физическое лицо"

def PERSON_JUR : String := "Юридическое лицо"

def SUBM_EPGU : String := "ЕПГУ"

def SUBM_MFC : String := "МФЦ"

def SUBM_PERSONAL : String := "Личный приём"

def SUBM_RPGU : String := "РПГУ"

/-- Python's substring test `pat in s`, on character lists. -/
def listContains (pat : List Char) : List Char → Bool
  | [] => pat.isEmpty
  | c :: t => pat.isPrefixOf (c :: t) || listContains pat t

/-- `_normalize_person_type` (monthly_reports.py line 173): a nonempty string
containing "Физ" is the physical person, everything else legal. -/
def _normalize_person_type (raw : String) : String :=
  if raw ≠ "" ∧ listContains "Физ".toList raw.toList then PERSON_PHYS else PERSON_JUR

/-- `_normalize_submission_method` (monthly_reports.py line 179). -/
def _normalize_submission_method (raw : String) : String :=
  if raw = "" then SUBM_EPGU
  else if listContains "ЕПГУ".toList raw.toList then SUBM_EPGU
  else if listContains "МФЦ".toList raw.toList then SUBM_MFC
  else if listContains "Лич".toList raw.toList then SUBM_PERSONAL
  else if listContains "РПГУ".toList raw.toList then SUBM_RPGU
  else SUBM_EPGU

/-- The per-card record kept by `_collect_completed_last_event`
(monthly_reports.py line 219). -/
structure CompletedRec where
  card_id : String
  title : String
  person_type : String
  submission_method : String
  result : String
  timestamp : String
deriving DecidableEq

/-- The record a move contributes to `_collect_completed_last_event`, or
`none` when the move is skipped (falsy `card_id`, or a non-terminal
destination column). -/
def qualify (m : Move) : Option CompletedRec :=
  match m.card_id with
  | none => none
  | some cid =>
    if cid = "" then none
    else
      match m.to_column_id with
      | none => none
      | some col =>
        if col ∈ POSITIVE_TO_COLUMN_IDS ∪ REFUSAL_TO_COLUMN_IDS then
          some { card_id := cid,
                 title := ((m.title.getD "").replace "\n" " ").trim,
                 person_type := _normalize_person_type (m.person_type.getD ""),
                 submission_method :=
                   _normalize_submission_method (m.submission_method.getD ""),
                 result := if col ∈ POSITIVE_TO_COLUMN_IDS then "ГПЗУ" else "ОТКАЗ",
                 timestamp := m.timestamp.getD "" }
        else none

/-- One step of `_collect_completed_last_event` (monthly_reports.py line 204):
keep the new record when the card is new or its timestamp is strictly larger
(string comparison of ISO timestamps). -/
def collectStep (acc : List (String × CompletedRec)) (m : Move) :
    List (String × CompletedRec) :=
  match qualify m with
  | none => acc
  | some r =>
    match lookupA acc r.card_id with
    | none => updA acc r.card_id r
    | some prev => if prev.timestamp < r.timestamp then updA acc r.card_id r else acc

/-- `_iter_moves_in_range` (monthly_reports.py line 161): all moves of the days
`start .. e` in order.  The store is modelled as a total map from day ordinal
to that day's (validated) move list; days missing from the store are `[]`. -/
def movesInRange (store : Int → List Move) (start e : Int) : List Move :=
  ((List.range (e + 1 - start).toNat).map (fun i : Nat => start + (i : Int))).flatMap store

/-- `_collect_completed_last_event` (monthly_reports.py line 197). -/
def _collect_completed_last_event (store : Int → List Move) (start e : Int) :
    List (String × CompletedRec) :=
  (movesInRange store start e).foldl collectStep []

/-- A `{"phys": ..., "jur": ...}` pair of counters. -/
structure Pair where
  phys : Nat
  jur : Nat
deriving DecidableEq

/-- The fixed-shape statistics table (`_zero_stats_like_table`,
monthly_reports.py line 119); the four `accepted_by_method` rows are the
fields `m_personal`, `m_mfc`, `m_epgu`, `m_rpgu`. -/
structure StatsTable where
  accepted_total : Pair
  m_personal : Pair
  m_mfc : Pair
  m_epgu : Pair
  m_rpgu : Pair
  services_total : Pair
  positive : Pair
  suspended : Pair
  refusals : Pair
deriving DecidableEq

def _zero_stats_like_table : StatsTable :=
  { accepted_total := ⟨0, 0⟩, m_personal := ⟨0, 0⟩, m_mfc := ⟨0, 0⟩,
    m_epgu := ⟨0, 0⟩, m_rpgu := ⟨0, 0⟩, services_total := ⟨0, 0⟩,
    positive := ⟨0, 0⟩, suspended := ⟨0, 0⟩, refusals := ⟨0, 0⟩ }

/-- The running accumulator of the loop in `compute_month_like_stats`
(monthly_reports.py lines 242-267). -/
structure MonthAcc where
  accepted_total : Pair
  m_personal : Pair
  m_mfc : Pair
  m_epgu : Pair
  m_rpgu : Pair
  positive : Pair
  refusals : Pair
deriving DecidableEq

def zeroMonthAcc : MonthAcc :=
  { accepted_total := ⟨0, 0⟩, m_personal := ⟨0, 0⟩, m_mfc := ⟨0, 0⟩,
    m_epgu := ⟨0, 0⟩, m_rpgu := ⟨0, 0⟩, positive := ⟨0, 0⟩, refusals := ⟨0, 0⟩ }

/-- `+= 1` on the side selected by the applicant type. -/
def bump (p : Pair) (phys : Bool) : Pair :=
  if phys then ⟨p.phys + 1, p.jur⟩ else ⟨p.phys, p.jur + 1⟩

/-- One completed record of the loop body in `compute_month_like_stats`
(monthly_reports.py line 253): count it in `accepted_total`; in its submission
channel unless that channel is РПГУ (an unknown channel counts as ЕПГУ); and
in `positive` or `refusals` by its result. -/
def statStep (a : MonthAcc) (r : CompletedRec) : MonthAcc :=
  let who := r.person_type = PERSON_PHYS
  let a1 := { a with accepted_total := bump a.accepted_total who }
  let a2 :=
    if r.submission_method = SUBM_RPGU then a1
    else
      let meth := if r.submission_method = SUBM_PERSONAL ∨
          r.submission_method = SUBM_MFC ∨ r.submission_method = SUBM_EPGU ∨
          r.submission_method = SUBM_RPGU then r.submission_method else SUBM_EPGU
      if meth = SUBM_PERSONAL then { a1 with m_personal := bump a1.m_personal who }
      else if meth = SUBM_MFC then { a1 with m_mfc := bump a1.m_mfc who }
      else if meth = SUBM_RPGU then { a1 with m_rpgu := bump a1.m_rpgu who }
      else { a1 with m_epgu := bump a1.m_epgu who }
  if r.result = "ГПЗУ" then { a2 with positive := bump a2.positive who }
  else { a2 with refusals := bump a2.refusals who }

/-- `compute_month_like_stats` (monthly_reports.py line 236): fold the
completed records, then assemble the table; `services_total` is
positive + refusals and `suspended` is identically zero. -/
def compute_month_like_stats (store : Int → List Move) (start e : Int) : StatsTable :=
  let completed := _collect_completed_last_event store start e
  let acc := (completed.map Prod.snd).foldl statStep zeroMonthAcc
  { accepted_total := acc.accepted_total,
    m_personal := acc.m_personal, m_mfc := acc.m_mfc,
    m_epgu := acc.m_epgu, m_rpgu := acc.m_rpgu,
    services_total := ⟨acc.positive.phys + acc.refusals.phys,
                       acc.positive.jur + acc.refusals.jur⟩,
    positive := acc.positive, suspended := ⟨0, 0⟩, refusals := acc.refusals }

/-! ## Aggregates and year-to-date (`monthly_reports.py` lines 112-157) -/

def addPair (a b : Pair) : Pair := ⟨a.phys + b.phys, a.jur + b.jur⟩

/-- `_add_stats` (monthly_reports.py line 134): field-wise addition of every
row of the table (the five scalar rows and the four submission-channel rows). -/
def _add_stats (dst src : StatsTable) : StatsTable :=
  { accepted_total := addPair dst.accepted_total src.accepted_total,
    m_personal := addPair dst.m_personal src.m_personal,
    m_mfc := addPair dst.m_mfc src.m_mfc,
    m_epgu := addPair dst.m_epgu src.m_epgu,
    m_rpgu := addPair dst.m_rpgu src.m_rpgu,
    services_total := addPair dst.services_total src.services_total,
    positive := addPair dst.positive src.positive,
    suspended := addPair dst.suspended src.suspended,
    refusals := addPair dst.refusals src.refusals }

/-- Zero-pad to two digits (`f"{m:02d}"`). -/
def pad2 (n : Nat) : String :=
  if n < 10 then "0" ++ toString n else toString n

/-- Zero-pad to four digits (`strftime("%Y")`). -/
def pad4 (n : Nat) : String :=
  if n < 10 then "000" ++ toString n
  else if n < 100 then "00" ++ toString n
  else if n < 1000 then "0" ++ toString n
  else toString n

/-- The aggregate key built inside `sum_aggregates_ytd`
(monthly_reports.py line 152): `f"{year}-{m:02d}"`. -/
def ytd_key (year m : Nat) : String := toString year ++ "-" ++ pad2 m

/-- `month_key` (monthly_reports.py line 58): `strftime("%Y-%m")`. -/
def month_key (d : Date) : String := pad4 d.year ++ "-" ++ pad2 d.month

/-- `sum_aggregates_ytd` (monthly_reports.py line 145): add the stored tables
of months `1 .. end_month`, then force the РПГУ row and the suspended row to
zero ("Жёстко фиксируем требования", lines 155-156). -/
def sum_aggregates_ytd (aggr : List (String × StatsTable)) (year end_month : Nat) :
    StatsTable :=
  let total := (List.range end_month).foldl
    (fun t i =>
      match lookupA aggr (ytd_key year (i + 1)) with
      | some s => _add_stats t s
      | none => t)
    _zero_stats_like_table
  { total with m_rpgu := ⟨0, 0⟩, suspended := ⟨0, 0⟩ }

/-- Modelled from the claim wording of C4 only (not from the source): the pure
field-wise sum of the persisted tables under keys `year-01 .. year-end_month`,
missing months contributing zero, with no rows overridden. -/
def sum_aggregates_ytd_fieldwise (aggr : List (String × StatsTable))
    (year end_month : Nat) : StatsTable :=
  (List.range end_month).foldl
    (fun t i =>
      match lookupA aggr (ytd_key year (i + 1)) with
      | some s => _add_stats t s
      | none => t)
    _zero_stats_like_table

/-! ## The monthly send loop body (`start_monthly_reports_thread`,
monthly_reports.py line 491)

One wake of the inner loop after the sleep, as a pure function of: the clock
(`today`), the configured holidays, the persisted guard (`state["last_sent"]`),
the persisted aggregates, the loaded store, and whether the document send
succeeds.  The Excel bytes and the text notice are outside the model; the two
`sent*` flags record that the sends were invoked (the text send's result is
ignored by the source, line 534).  `build_month_excel_report`
(monthly_reports.py line 409) computes the month table from the store, writes
it into the aggregates under the month key, and derives the YTD table from the
updated aggregates. -/

structure MonthlyResult where
  aggr : List (String × StatsTable)
  last_sent : Option String
  sentText : Bool
  sentDoc : Bool
deriving DecidableEq

/-- `prev_month_range` (monthly_reports.py line 73): `date(y, m, 1) - 1 day`
is the last day of the previous month. -/
def prev_month_range (today : Date) : Date × Date :=
  let last_prev : Date :=
    if today.month = 1 then ⟨today.year - 1, 12, 31⟩
    else ⟨today.year, today.month - 1, daysInMonth today.year (today.month - 1)⟩
  (⟨last_prev.year, last_prev.month, 1⟩, last_prev)

def monthly_iter (H : Finset Int) (today : Date) (last_sent : Option String)
    (aggr : List (String × StatsTable)) (store : Int → List Move) (docOk : Bool) :
    MonthlyResult :=
  let fwd := first_workday_of_month H today.year today.month
  if today.toOrd ≠ fwd then ⟨aggr, last_sent, false, false⟩
  else
    let pr := prev_month_range today
    let pmKey := month_key pr.2
    if last_sent = some pmKey then ⟨aggr, last_sent, false, false⟩
    else
      -- build_month_excel_report: compute the month, persist it in the
      -- aggregates (its YTD and workbook do not affect the loop's state)
      let monthStats := compute_month_like_stats store (pr.1.toOrd) (pr.2.toOrd)
      let aggr' := updA aggr (month_key pr.2) monthStats
      -- text notice sent (result ignored), then the document
      if docOk then ⟨aggr', some pmKey, true, true⟩
      else ⟨aggr', last_sent, true, true⟩

/-- The per-key effect of one `_collect_completed_last_event` step: keep the
stored record unless the new one has a strictly larger timestamp (or the key
is new). -/
def mergeRec (o : Option CompletedRec) (r : CompletedRec) : Option CompletedRec :=
  match o with
  | none => some r
  | some p => if p.timestamp < r.timestamp then some r else some p

/-! ### Concrete fixtures used by witnesses -/

/-- A terminal move of card "7" (positive outcome), the earlier of two. -/
def mvEarly : Move :=
  { card_id := some "7", title := some "t",
    person_type := some "Физическое лицо", submission_method := some "ЕПГУ",
    from_column_id := some 111, from_column := some "A",
    to_column_id := some 5474978, to_column := some "Внести в ИСОГД и архив",
    user := some "u", timestamp := some "2025-01-05T08:00:00" }

/-- A later terminal move of the same card (refusal outcome). -/
def mvLate : Move :=
  { card_id := some "7", title := some "t",
    person_type := some "Физическое лицо", submission_method := some "ЕПГУ",
    from_column_id := some 5474978, from_column := some "B",
    to_column_id := some 5474969, to_column := some "Внести в ИСОГД",
    user := some "u", timestamp := some "2025-01-05T09:00:00" }

/-- A one-day store holding both moves of card "7". -/
def storeW : Int → List Move := fun d => if d = 0 then [mvEarly, mvLate] else []

/-- The same store with the dominated earlier move removed. -/
def storeW2 : Int → List Move := fun d => if d = 0 then [mvLate] else []

/-- The record `qualify` extracts from `mvEarly`. -/
def recEarly : CompletedRec :=
  { card_id := "7", title := ("t".replace "\n" " ").trim,
    person_type := "Физическое лицо",
    submission_method := "ЕПГУ", result := "ГПЗУ",
    timestamp := "2025-01-05T08:00:00" }

/-- The record `qualify` extracts from `mvLate`. -/
def recLate : CompletedRec :=
  { card_id := "7", title := ("t".replace "\n" " ").trim,
    person_type := "Физическое лицо",
    submission_method := "ЕПГУ", result := "ОТКАЗ",
    timestamp := "2025-01-05T09:00:00" }

/-! ## Shared lemmas on association lists -/

theorem lookupA_updA_self {β : Type} (l : List (String × β)) (k : String) (v : β) :
    lookupA (updA l k v) k = some v := by
  induction l with
  | nil => simp [updA, lookupA]
  | cons hd t ih =>
    obtain ⟨k1, v1⟩ := hd
    by_cases hk : k1 = k
    · simp [updA, hk, lookupA]
    · simp [updA, hk, lookupA, ih]

theorem lookupA_updA_ne {β : Type} (l : List (String × β)) (k k' : String) (v : β)
    (h : k' ≠ k) : lookupA (updA l k v) k' = lookupA l k' := by
  induction l with
  | nil => simp [updA, lookupA, Ne.symm h]
  | cons hd t ih =>
    obtain ⟨k1, v1⟩ := hd
    by_cases hk : k1 = k
    · subst hk
      simp [updA, lookupA, Ne.symm h, h]
    · simp [updA, hk, lookupA, ih]

theorem keysA_updA_of_mem {β : Type} (l : List (String × β)) (k : String) (v : β)
    (h : lookupA l k ≠ none) : keysA (updA l k v) = keysA l := by
  induction l with
  | nil => simp [lookupA] at h
  | cons hd t ih =>
    obtain ⟨k1, v1⟩ := hd
    by_cases hk : k1 = k
    · simp [updA, hk, keysA]
    · simp only [lookupA, hk, if_false] at h
      simp [updA, hk, keysA] at ih ⊢
      exact ih h

theorem updA_of_not_mem {β : Type} (l : List (String × β)) (k : String) (v : β)
    (h : lookupA l k = none) : updA l k v = l ++ [(k, v)] := by
  induction l with
  | nil => simp [updA]
  | cons hd t ih =>
    obtain ⟨k1, v1⟩ := hd
    by_cases hk : k1 = k
    · simp [lookupA, hk] at h
    · simp only [lookupA, hk, if_false] at h
      simp [updA, hk, ih h]

theorem lookupA_eq_none_iff {β : Type} (l : List (String × β)) (k : String) :
    lookupA l k = none ↔ k ∉ keysA l := by
  induction l with
  | nil => simp [lookupA, keysA]
  | cons hd t ih =>
    obtain ⟨k1, v1⟩ := hd
    by_cases hk : k1 = k
    · simp [lookupA, hk, keysA]
    · simp [lookupA, hk, keysA, ih, Ne.symm hk]

theorem keysA_nodup_updA {β : Type} (l : List (String × β)) (k : String) (v : β)
    (h : (keysA l).Nodup) : (keysA (updA l k v)).Nodup := by
  by_cases hm : lookupA l k = none
  · rw [updA_of_not_mem l k v hm]
    have hk := (lookupA_eq_none_iff l k).mp hm
    have : keysA (l ++ [(k, v)]) = keysA l ++ [k] := by simp [keysA]
    rw [this]
    refine List.Nodup.append h (List.nodup_singleton k) ?_
    intro a ha hb
    simp at hb
    exact hk (hb ▸ ha)
  · rw [keysA_updA_of_mem l k v hm]; exact h


/-! ## Claim C8: previous workday -/

/-- C8: for every date `d` and every finite holiday set, `prev_workday`
terminates (it is a total function built on `exists_workday_below`) and
returns a date strictly before `d` that is a workday, and every date strictly
between the result and `d` is not a workday. -/
theorem C8_prev_workday_spec (H : Finset Int) (d : Int) :
    prev_workday H d < d ∧ is_workday H (prev_workday H d) ∧
      ∀ k : Int, prev_workday H d < k → k < d → ¬ is_workday H k := by
  unfold prev_workday
  refine ⟨by omega, Nat.find_spec (exists_workday_below H d), ?_⟩
  intro k h1 h2
  have hnn : (0 : Int) ≤ d - 1 - k := by omega
  have hrep : k = d - 1 - ((d - 1 - k).toNat : Int) := by omega
  have hlt : (d - 1 - k).toNat < Nat.find (exists_workday_below H d) := by omega
  have := Nat.find_min (exists_workday_below H d) hlt
  rw [hrep]
  exact this

/-! ## Claim C5: pruning -/

/-- C5: for every store and every retention value ≥ 0 (`retention : ℕ`),
`_prune_old_dates` keeps exactly the entries whose key either fails to parse
as a date or parses to a date not strictly older than `now − retention`; kept
entries are unchanged (the result is a sublist of the input). -/
theorem C5_prune_exact {β : Type} (retention : Nat) (nowOrd : Int)
    (s : List (String × β)) :
    (∀ k : String, ∀ b : β,
      ((k, b) ∈ _prune_old_dates retention nowOrd s ↔
        ((k, b) ∈ s ∧ ∀ o : Int, parse_date_ord k = some o → ¬ (o < nowOrd - retention)))) ∧
    (_prune_old_dates retention nowOrd s).Sublist s := by
  constructor
  · intro k b
    unfold _prune_old_dates
    rw [List.mem_filter]
    constructor
    · rintro ⟨hmem, hcond⟩
      refine ⟨hmem, ?_⟩
      intro o ho
      simp only [ho] at hcond
      intro hlt
      simp [hlt] at hcond
    · rintro ⟨hmem, hcond⟩
      refine ⟨hmem, ?_⟩
      cases hpo : parse_date_ord k with
      | none => simp [hpo]
      | some o =>
        have := hcond o hpo
        simp [hpo, this]
  · exact List.filter_sublist _

/-! ## Claim C10: shape invariants of the monthly table -/

theorem statStep_accepted_total (a : MonthAcc) (r : CompletedRec) :
    (statStep a r).accepted_total =
      bump a.accepted_total (r.person_type = PERSON_PHYS) := by
  simp only [statStep]
  split_ifs <;> rfl

theorem statStep_positive (a : MonthAcc) (r : CompletedRec) :
    (statStep a r).positive =
      if r.result = "ГПЗУ" then bump a.positive (r.person_type = PERSON_PHYS)
      else a.positive := by
  simp only [statStep]
  split_ifs <;> rfl

theorem statStep_refusals (a : MonthAcc) (r : CompletedRec) :
    (statStep a r).refusals =
      if r.result = "ГПЗУ" then a.refusals
      else bump a.refusals (r.person_type = PERSON_PHYS) := by
  simp only [statStep]
  split_ifs <;> rfl

theorem statStep_m_rpgu (a : MonthAcc) (r : CompletedRec) :
    (statStep a r).m_rpgu = a.m_rpgu := by
  simp only [statStep]
  split_ifs <;> first | rfl | (exfalso; simp_all [SUBM_RPGU, SUBM_EPGU])

/-- Fold invariant: `accepted_total` grows exactly as `positive + refusals`,
and the РПГУ row never changes. -/
theorem statFold_inv (l : List CompletedRec) (a : MonthAcc) :
    ((l.foldl statStep a).accepted_total.phys + a.positive.phys + a.refusals.phys =
      (l.foldl statStep a).positive.phys + (l.foldl statStep a).refusals.phys +
        a.accepted_total.phys) ∧
    ((l.foldl statStep a).accepted_total.jur + a.positive.jur + a.refusals.jur =
      (l.foldl statStep a).positive.jur + (l.foldl statStep a).refusals.jur +
        a.accepted_total.jur) ∧
    (l.foldl statStep a).m_rpgu = a.m_rpgu := by
  induction l generalizing a with
  | nil => exact ⟨by simp only [List.foldl_nil]; omega, by simp only [List.foldl_nil]; omega,
      by simp only [List.foldl_nil]⟩
  | cons r t ih =>
    have := ih (statStep a r)
    simp only [List.foldl_cons]
    rw [statStep_accepted_total, statStep_positive, statStep_refusals,
      statStep_m_rpgu] at this
    refine ⟨?_, ?_, this.2.2⟩ <;>
      rcases this with ⟨h1, h2, _⟩ <;>
      unfold bump at h1 h2 <;>
      split_ifs at h1 h2 <;>
      simp at h1 h2 ⊢ <;>
      omega

/-- C10: every table produced by `compute_month_like_stats` classifies each
counted unit as exactly one of positive or refusal: `services_total` is their
sum, `accepted_total` equals `services_total`, and the suspended row and the
РПГУ submission-channel row are identically zero. -/
theorem C10_month_stats_invariants (store : Int → List Move) (start e : Int) :
    (compute_month_like_stats store start e).services_total.phys =
      (compute_month_like_stats store start e).positive.phys +
        (compute_month_like_stats store start e).refusals.phys ∧
    (compute_month_like_stats store start e).services_total.jur =
      (compute_month_like_stats store start e).positive.jur +
        (compute_month_like_stats store start e).refusals.jur ∧
    (compute_month_like_stats store start e).accepted_total =
      (compute_month_like_stats store start e).services_total ∧
    (compute_month_like_stats store start e).suspended = ⟨0, 0⟩ ∧
    (compute_month_like_stats store start e).m_rpgu = ⟨0, 0⟩ := by
  have hinv := statFold_inv
    ((_collect_completed_last_event store start e).map Prod.snd) zeroMonthAcc
  have e1 : (((_collect_completed_last_event store start e).map Prod.snd).foldl
      statStep zeroMonthAcc).accepted_total.phys =
      (((_collect_completed_last_event store start e).map Prod.snd).foldl
        statStep zeroMonthAcc).positive.phys +
      (((_collect_completed_last_event store start e).map Prod.snd).foldl
        statStep zeroMonthAcc).refusals.phys := by
    have := hinv.1
    simp only [show zeroMonthAcc.positive.phys = 0 from rfl,
      show zeroMonthAcc.refusals.phys = 0 from rfl,
      show zeroMonthAcc.accepted_total.phys = 0 from rfl] at this
    omega
  have e2 : (((_collect_completed_last_event store start e).map Prod.snd).foldl
      statStep zeroMonthAcc).accepted_total.jur =
      (((_collect_completed_last_event store start e).map Prod.snd).foldl
        statStep zeroMonthAcc).positive.jur +
      (((_collect_completed_last_event store start e).map Prod.snd).foldl
        statStep zeroMonthAcc).refusals.jur := by
    have := hinv.2.1
    simp only [show zeroMonthAcc.positive.jur = 0 from rfl,
      show zeroMonthAcc.refusals.jur = 0 from rfl,
      show zeroMonthAcc.accepted_total.jur = 0 from rfl] at this
    omega
  refine ⟨rfl, rfl, ?_, rfl, ?_⟩
  · show (((_collect_completed_last_event store start e).map Prod.snd).foldl
        statStep zeroMonthAcc).accepted_total =
      (⟨(((_collect_completed_last_event store start e).map Prod.snd).foldl
          statStep zeroMonthAcc).positive.phys +
        (((_collect_completed_last_event store start e).map Prod.snd).foldl
          statStep zeroMonthAcc).refusals.phys,
        (((_collect_completed_last_event store start e).map Prod.snd).foldl
          statStep zeroMonthAcc).positive.jur +
        (((_collect_completed_last_event store start e).map Prod.snd).foldl
          statStep zeroMonthAcc).refusals.jur⟩ : Pair)
    calc (((_collect_completed_last_event store start e).map Prod.snd).foldl
          statStep zeroMonthAcc).accepted_total
        = ⟨(((_collect_completed_last_event store start e).map Prod.snd).foldl
            statStep zeroMonthAcc).accepted_total.phys,
           (((_collect_completed_last_event store start e).map Prod.snd).foldl
            statStep zeroMonthAcc).accepted_total.jur⟩ := rfl
      _ = _ := by rw [e1, e2]
  · exact hinv.2.2

/-! ## Claim C4: year-to-date aggregation -/

theorem lookupA_mem {β : Type} (l : List (String × β)) (k : String) (v : β)
    (h : lookupA l k = some v) : (k, v) ∈ l := by
  induction l with
  | nil => simp [lookupA] at h
  | cons hd t ih =>
    obtain ⟨k1, v1⟩ := hd
    by_cases hk : k1 = k
    · simp [lookupA, hk] at h
      simp [hk, h]
    · simp only [lookupA, hk, if_false] at h
      simp [ih h]

/-- The fold of `sum_aggregates_ytd` keeps the suspended and РПГУ rows at zero
when every stored table has them at zero. -/
theorem ytd_fold_zero (aggr : List (String × StatsTable)) (year : Nat)
    (hz : ∀ k : String, ∀ t : StatsTable, (k, t) ∈ aggr →
      t.suspended = ⟨0, 0⟩ ∧ t.m_rpgu = ⟨0, 0⟩) :
    ∀ L : List Nat, ∀ t0 : StatsTable, t0.suspended = ⟨0, 0⟩ → t0.m_rpgu = ⟨0, 0⟩ →
      (L.foldl (fun t i =>
        match lookupA aggr (ytd_key year (i + 1)) with
        | some s => _add_stats t s
        | none => t) t0).suspended = ⟨0, 0⟩ ∧
      (L.foldl (fun t i =>
        match lookupA aggr (ytd_key year (i + 1)) with
        | some s => _add_stats t s
        | none => t) t0).m_rpgu = ⟨0, 0⟩ := by
  intro L
  induction L with
  | nil => intro t0 h1 h2; simpa using ⟨h1, h2⟩
  | cons i t ih =>
    intro t0 h1 h2
    simp only [List.foldl_cons]
    cases hl : lookupA aggr (ytd_key year (i + 1)) with
    | none => exact ih t0 h1 h2
    | some s =>
      have hs := hz _ _ (lookupA_mem _ _ _ hl)
      refine ih _ ?_ ?_ <;>
        simp [_add_stats, addPair, h1, h2, hs.1, hs.2]

/-- C4 counterexample: the claim as stated fails on an aggregates mapping whose
stored January table has a nonzero suspended row — the code forces the
suspended and РПГУ rows of the YTD table to zero, so the result is not the
field-wise sum. -/
theorem C4_ytd_fieldwise_cex :
    sum_aggregates_ytd
        [("2025-01", { _zero_stats_like_table with suspended := ⟨1, 0⟩ })] 2025 1 ≠
      sum_aggregates_ytd_fieldwise
        [("2025-01", { _zero_stats_like_table with suspended := ⟨1, 0⟩ })] 2025 1 := by
  decide

/-- C4 amended: the computed YTD table equals the field-wise sum of the
persisted tables under keys `year-01 .. year-end_month` (missing months
contributing zero) with the suspended and РПГУ rows overridden to zero; it
equals the plain field-wise sum whenever every stored table already has those
rows zero (as every table produced by `compute_month_like_stats` does, C10);
and recomputing from the same aggregates is deterministic. -/
theorem C4_ytd_sum_amended (aggr : List (String × StatsTable)) (year end_month : Nat) :
    (sum_aggregates_ytd aggr year end_month =
      { sum_aggregates_ytd_fieldwise aggr year end_month with
          m_rpgu := ⟨0, 0⟩, suspended := ⟨0, 0⟩ }) ∧
    ((∀ k : String, ∀ t : StatsTable, (k, t) ∈ aggr →
        t.suspended = ⟨0, 0⟩ ∧ t.m_rpgu = ⟨0, 0⟩) →
      sum_aggregates_ytd aggr year end_month =
        sum_aggregates_ytd_fieldwise aggr year end_month) ∧
    (sum_aggregates_ytd aggr year end_month = sum_aggregates_ytd aggr year end_month) := by
  refine ⟨rfl, ?_, rfl⟩
  intro hz
  have hzero := ytd_fold_zero aggr year hz (List.range end_month)
    _zero_stats_like_table rfl rfl
  show { sum_aggregates_ytd_fieldwise aggr year end_month with
      m_rpgu := ⟨0, 0⟩, suspended := ⟨0, 0⟩ } =
    sum_aggregates_ytd_fieldwise aggr year end_month
  have h1 : (sum_aggregates_ytd_fieldwise aggr year end_month).suspended = ⟨0, 0⟩ :=
    hzero.1
  have h2 : (sum_aggregates_ytd_fieldwise aggr year end_month).m_rpgu = ⟨0, 0⟩ :=
    hzero.2
  cases hst : sum_aggregates_ytd_fieldwise aggr year end_month
  rw [hst] at h1 h2
  simp_all

/-- Witness for the amended C4 at a concrete aggregates mapping. -/
theorem C4_ytd_sum_amended_witness :
    (∀ k : String, ∀ t : StatsTable,
      (k, t) ∈ [("2025-01", _zero_stats_like_table)] →
        t.suspended = ⟨0, 0⟩ ∧ t.m_rpgu = ⟨0, 0⟩) ∧
    sum_aggregates_ytd [("2025-01", _zero_stats_like_table)] 2025 1 =
      sum_aggregates_ytd_fieldwise [("2025-01", _zero_stats_like_table)] 2025 1 := by
  have hz : ∀ k : String, ∀ t : StatsTable,
      (k, t) ∈ [("2025-01", _zero_stats_like_table)] →
        t.suspended = ⟨0, 0⟩ ∧ t.m_rpgu = ⟨0, 0⟩ := by
    intro k t h
    simp at h
    rw [h.2]
    exact ⟨rfl, rfl⟩
  exact ⟨hz, (C4_ytd_sum_amended [("2025-01", _zero_stats_like_table)] 2025 1).2.1 hz⟩

/-! ## Claim C2: identity extraction order -/

theorem cardNonempty_false_id (c : CardObj) (h : ¬ cardNonempty c = true) :
    c.id = none := by
  cases hid : c.id with
  | none => rfl
  | some v => exfalso; apply h; simp [cardNonempty, hid]

theorem cardNonempty_false_uid (c : CardObj) (h : ¬ cardNonempty c = true) :
    c.uid = none := by
  cases hid : c.uid with
  | none => rfl
  | some v => exfalso; apply h; simp [cardNonempty, hid]

/-- C2 counterexample: on a payload carrying both a nested-card id (`card.id`
= 9) and an event-level generic id (`data.id` = 7), the claimed order picks
the nested card id ("9") but the source picks `data.id` ("7") — the code
checks `data.id` (and `changes.card_id`) before the nested card object. -/
theorem C2_extract_order_cex :
    extract_card_key_claim_order
        { old := ⟨none, none, none, none, none, none⟩,
          card_id := none, id := some (.vint 7),
          changes := ⟨none, none, none⟩,
          card := ⟨some (.vint 9), none, none⟩,
          author := ⟨none, none⟩ } = some "9" ∧
    extract_card_key
        { old := ⟨none, none, none, none, none, none⟩,
          card_id := none, id := some (.vint 7),
          changes := ⟨none, none, none⟩,
          card := ⟨some (.vint 9), none, none⟩,
          author := ⟨none, none⟩ } = some "7" ∧
    some "9" ≠ some "7" := by
  refine ⟨by decide, by decide, by decide⟩

/-- C2 amended: the extracted identity is the first non-empty candidate in the
source order `old.id`, `old.uid`, `data.card_id`, `data.id`,
`changes.card_id`, `card.id`, `card.uid`; and when every candidate fails the
extractor returns no identity and the handler drops the event with no store
mutation while still acknowledging success. -/
theorem C2_extract_chain_amended :
    (∀ d : PData, extract_card_key d = first_some (extract_candidates d)) ∧
    (∀ (retention : Nat) (nowOrd : Int) (date_key ts : String) (b : Body)
        (store : List (String × List Move)),
      b.event = some "card:update" →
      b.data.changes.column_id ≠ none →
      extract_card_key b.data = none →
      kaiten_webhook retention nowOrd date_key ts b store = (store, true)) := by
  constructor
  · intro d
    unfold extract_card_key extract_candidates
    by_cases hc : cardNonempty d.card = true
    · cases h1 : truthyOpt d.old.id <;>
      cases h2 : truthyOpt d.old.uid <;>
      cases h3 : truthyOpt d.card_id <;>
      cases h4 : truthyOpt d.id <;>
      cases h5 : truthyOpt d.changes.card_id <;>
      cases h6 : truthyOpt d.card.id <;>
      cases h7 : truthyOpt d.card.uid <;>
      simp [first_some, hc]
    · rw [cardNonempty_false_id _ hc, cardNonempty_false_uid _ hc]
      cases h1 : truthyOpt d.old.id <;>
      cases h2 : truthyOpt d.old.uid <;>
      cases h3 : truthyOpt d.card_id <;>
      cases h4 : truthyOpt d.id <;>
      cases h5 : truthyOpt d.changes.card_id <;>
      simp [first_some, hc, truthyOpt]
  · intro retention nowOrd date_key ts b store hev hcol hext
    unfold kaiten_webhook
    rw [hev]
    simp only [ne_eq, not_true_eq_false, if_false, ite_false, reduceIte]
    cases hcc : b.data.changes.column_id with
    | none => exact absurd hcc hcol
    | some newRaw =>
      rw [hext]

/-- Witness for the amended C2: a payload with no identity candidate is
dropped with no mutation and an OK acknowledgement. -/
theorem C2_extract_chain_amended_witness :
    extract_card_key
        { old := ⟨none, none, none, none, none, none⟩,
          card_id := none, id := none,
          changes := ⟨some (.vint 123), none, none⟩,
          card := ⟨none, none, none⟩,
          author := ⟨none, none⟩ } = none ∧
    kaiten_webhook 90 100 "2025-01-02" "2025-01-02T08:00:00+07:00"
        { event := some "card:update",
          data := { old := ⟨none, none, none, none, none, none⟩,
                    card_id := none, id := none,
                    changes := ⟨some (.vint 123), none, none⟩,
                    card := ⟨none, none, none⟩,
                    author := ⟨none, none⟩ } }
        [("2025-01-01", [])] = ([("2025-01-01", [])], true) := by
  refine ⟨by decide, ?_⟩
  exact C2_extract_chain_amended.2 90 100 "2025-01-02" "2025-01-02T08:00:00+07:00"
    _ _ rfl (by decide) (by decide)

/-! ## Claim C9: the endpoint always acknowledges; failures do not mutate -/

/-- C9: the handler returns the success acknowledgement for every payload, and
a payload whose event kind is not `card:update`, or whose change-set omits
`column_id`, or whose destination value is not integer-coercible, or from
which no card identity resolves, leaves the store unchanged. -/
theorem C9_webhook_ack_no_mutation (retention : Nat) (nowOrd : Int)
    (date_key ts : String) (b : Body) (store : List (String × List Move)) :
    (kaiten_webhook retention nowOrd date_key ts b store).2 = true ∧
    ((b.event ≠ some "card:update" ∨
      b.data.changes.column_id = none ∨
      (∃ v : PyVal, b.data.changes.column_id = some v ∧ pyToInt v = none) ∨
      extract_card_key b.data = none) →
      (kaiten_webhook retention nowOrd date_key ts b store).1 = store) := by
  constructor
  · simp only [kaiten_webhook]
    repeat first
    | rfl
    | split
  · intro hbad
    simp only [kaiten_webhook]
    by_cases hev : b.event ≠ some "card:update"
    · rw [if_pos hev]
    · rw [if_neg hev]
      rcases hbad with h | h | ⟨v, hv, hvi⟩ | h
      · exact absurd h hev
      · simp only [h]
      · simp only [hv]
        cases hext : extract_card_key b.data with
        | none => simp only [hext]
        | some cid => simp only [hext, hvi]
      · cases hcc : b.data.changes.column_id with
        | none => simp only [hcc]
        | some newRaw => simp only [hcc, h]

/-- Witness for C9: a `tag:add` event leaves a concrete store untouched and is
still acknowledged. -/
theorem C9_webhook_ack_no_mutation_witness :
    (kaiten_webhook 90 100 "2025-01-02" "ts"
        { event := some "tag:add",
          data := { old := ⟨none, none, none, none, none, none⟩,
                    card_id := some (.vint 5), id := none,
                    changes := ⟨some (.vint 123), none, none⟩,
                    card := ⟨none, none, none⟩,
                    author := ⟨none, none⟩ } }
        [("2025-01-01", [])]).2 = true ∧
    (kaiten_webhook 90 100 "2025-01-02" "ts"
        { event := some "tag:add",
          data := { old := ⟨none, none, none, none, none, none⟩,
                    card_id := some (.vint 5), id := none,
                    changes := ⟨some (.vint 123), none, none⟩,
                    card := ⟨none, none, none⟩,
                    author := ⟨none, none⟩ } }
        [("2025-01-01", [])]).1 = [("2025-01-01", [])] := by
  have h := C9_webhook_ack_no_mutation 90 100 "2025-01-02" "ts"
    { event := some "tag:add",
      data := { old := ⟨none, none, none, none, none, none⟩,
                card_id := some (.vint 5), id := none,
                changes := ⟨some (.vint 123), none, none⟩,
                card := ⟨none, none, none⟩,
                author := ⟨none, none⟩ } }
    [("2025-01-01", [])]
  exact ⟨h.1, h.2 (Or.inl (by decide))⟩

/-! ## Claim C3: idempotent monthly send -/

/-- C3: a wake of the monthly loop for a month whose key already equals the
persisted guard performs no state mutation (aggregates and guard unchanged,
nothing sent); on document-send failure the guard is untouched; and the guard
changes only when the document send succeeded, to the previous month's key —
so invoking the send path twice for one month records at most one delivery. -/
theorem C3_monthly_guard (H : Finset Int) (today : Date) (last_sent : Option String)
    (aggr : List (String × StatsTable)) (store : Int → List Move) (docOk : Bool) :
    (last_sent = some (month_key (prev_month_range today).2) →
      monthly_iter H today last_sent aggr store docOk =
        ⟨aggr, last_sent, false, false⟩) ∧
    (docOk = false →
      (monthly_iter H today last_sent aggr store docOk).last_sent = last_sent) ∧
    ((monthly_iter H today last_sent aggr store docOk).last_sent ≠ last_sent →
      docOk = true ∧
      (monthly_iter H today last_sent aggr store docOk).sentDoc = true ∧
      (monthly_iter H today last_sent aggr store docOk).last_sent =
        some (month_key (prev_month_range today).2)) := by
  refine ⟨?_, ?_, ?_⟩
  · intro hguard
    simp only [monthly_iter]
    by_cases hfwd : today.toOrd ≠ first_workday_of_month H today.year today.month
    · rw [if_pos hfwd]
    · rw [if_neg hfwd, if_pos hguard]
  · intro hdoc
    subst hdoc
    simp only [monthly_iter]
    by_cases hfwd : today.toOrd ≠ first_workday_of_month H today.year today.month
    · rw [if_pos hfwd]
    · rw [if_neg hfwd]
      by_cases hguard : last_sent = some (month_key (prev_month_range today).2)
      · rw [if_pos hguard]
      · rw [if_neg hguard]
        simp
  · intro hch
    simp only [monthly_iter] at hch ⊢
    by_cases hfwd : today.toOrd ≠ first_workday_of_month H today.year today.month
    · rw [if_pos hfwd] at hch
      exact absurd rfl hch
    · rw [if_neg hfwd] at hch ⊢
      by_cases hguard : last_sent = some (month_key (prev_month_range today).2)
      · rw [if_pos hguard] at hch
        exact absurd rfl hch
      · rw [if_neg hguard] at hch ⊢
        cases hdoc : docOk with
        | false => rw [hdoc] at hch; simp at hch
        | true => simp

/-- Witness for C3: the guard already holds February 2025 on a March wake, so
the iteration mutates nothing and sends nothing. -/
theorem C3_monthly_guard_witness :
    some (month_key (prev_month_range ⟨2025, 3, 3⟩).2) = some "2025-02" ∧
    monthly_iter ∅ ⟨2025, 3, 3⟩ (some "2025-02") [] (fun _ => []) true =
      ⟨[], some "2025-02", false, false⟩ := by
  have hk : month_key (prev_month_range (⟨2025, 3, 3⟩ : Date)).2 = "2025-02" := by decide
  refine ⟨by rw [hk], ?_⟩
  have := (C3_monthly_guard ∅ ⟨2025, 3, 3⟩ (some "2025-02") [] (fun _ => []) true).1
    (by rw [hk])
  rw [this]

/-! ## Claim C1: daily metrics count distinct cards -/

theorem metric_fold_eq (l : List Move) :
    ∀ f : Metric → Finset String, ∀ mk : Metric,
      (l.foldl metric_step f) mk = f mk ∪ (l.filterMap (metric_qual mk)).toFinset := by
  induction l with
  | nil => intro f mk; simp
  | cons hd t ih =>
    intro f mk
    simp only [List.foldl_cons, List.filterMap_cons]
    rw [ih]
    cases hcid : hd.card_id with
    | none => simp [metric_step, metric_qual, hcid]
    | some cid =>
      cases hcol : hd.to_column_id with
      | none => simp [metric_step, metric_qual, hcid, hcol]
      | some col =>
        by_cases hc : cid ≠ "" ∧ col ≠ 0
        · by_cases hm : col ∈ metric_ids mk
          · simp [metric_step, metric_qual, hcid, hcol, hc, hc.1, hc.2, hm,
              Finset.union_insert]
          · simp [metric_step, metric_qual, hcid, hcol, hc, hc.1, hc.2, hm]
        · rw [Decidable.not_and_iff_or_not] at hc
          rcases hc with hc | hc
          · simp at hc
            simp [metric_step, metric_qual, hcid, hcol, hc]
          · simp at hc
            simp [metric_step, metric_qual, hcid, hcol, hc]

/-- C1: `build_report_totals` counts, per metric, the number of distinct card
identities with at least one qualifying move of the day (so a card moved into
a metric's target set N ≥ 1 times contributes exactly 1); a card is counted
iff some move of the day qualifies it; and in the A→B→A→B scenario with B =
5485743 the metric `rso_requests_done` reports exactly 1. -/
theorem C1_daily_metrics_distinct :
    (∀ store : List (String × List Move), ∀ date_str : String, ∀ mk : Metric,
      build_report_totals store date_str mk =
        ((day_moves store date_str).filterMap (metric_qual mk)).toFinset.card) ∧
    (∀ store : List (String × List Move), ∀ date_str : String, ∀ mk : Metric,
      ∀ c : String,
      c ∈ ((day_moves store date_str).filterMap (metric_qual mk)).toFinset ↔
        ∃ mv ∈ day_moves store date_str, metric_qual mk mv = some c) ∧
    build_report_totals
      [("2025-03-05",
        [ { card_id := some "77", title := some "t", person_type := none,
            submission_method := none, from_column_id := some 111,
            from_column := none, to_column_id := some 5485743, to_column := none,
            user := none, timestamp := some "08:00" },
          { card_id := some "77", title := some "t", person_type := none,
            submission_method := none, from_column_id := some 5485743,
            from_column := none, to_column_id := some 111, to_column := none,
            user := none, timestamp := some "09:00" },
          { card_id := some "77", title := some "t", person_type := none,
            submission_method := none, from_column_id := some 111,
            from_column := none, to_column_id := some 5485743, to_column := none,
            user := none, timestamp := some "10:00" } ])]
      "2025-03-05" Metric.rso_requests_done = 1 := by
  refine ⟨?_, ?_, ?_⟩
  · intro store date_str mk
    unfold build_report_totals
    rw [metric_fold_eq]
    simp
  · intro store date_str mk c
    simp [List.mem_filterMap]
  · decide

/-! ## Claim C6: persistence round trip -/

theorem keysA_prune_nodup {β : Type} (retention : Nat) (nowOrd : Int)
    (s : List (String × β)) (h : (keysA s).Nodup) :
    (keysA (_prune_old_dates retention nowOrd s)).Nodup := by
  unfold _prune_old_dates keysA
  exact ((List.filter_sublist s).map Prod.fst).nodup h

/-- Folding the loader over serialized day entries with fresh keys appends
them unchanged. -/
theorem load_fold_serialized (l : List (String × List JVal)) :
    ∀ acc : List (String × List JVal),
      (keysA l).Nodup → (∀ k : String, k ∈ keysA l → k ∉ keysA acc) →
      ((l.map fun kv => (kv.1, JVal.jobj [("moves", JVal.jarr kv.2)])).foldl
        (fun res kv =>
          match kv.2 with
          | .jobj fields =>
            match jlookup fields "moves" with
            | none => updA res kv.1 []
            | some (.jarr ms) => updA res kv.1 ms
            | some _ => res
          | _ => res) acc) = acc ++ l := by
  induction l with
  | nil => intro acc _ _; simp
  | cons hd t ih =>
    intro acc hnd hdisj
    obtain ⟨k, ms⟩ := hd
    simp only [List.map_cons, List.foldl_cons]
    have hstep : (match jlookup [("moves", JVal.jarr ms)] "moves" with
        | none => updA acc k []
        | some (.jarr ms') => updA acc k ms'
        | some _ => acc) = updA acc k ms := by
      simp [jlookup]
    rw [hstep]
    have hknotacc : k ∉ keysA acc := hdisj k (by simp [keysA])
    rw [updA_of_not_mem acc k ms ((lookupA_eq_none_iff acc k).mpr hknotacc)]
    have hndt : (keysA t).Nodup := by
      simp [keysA] at hnd
      exact hnd.2
    have hknt : k ∉ keysA t := by
      simp [keysA] at hnd
      intro hmem
      simp [keysA, List.mem_map] at hmem
      obtain ⟨b, hb⟩ := hmem
      exact absurd hb (hnd.1 b)
    have hdisj' : ∀ k' : String, k' ∈ keysA t → k' ∉ keysA (acc ++ [(k, ms)]) := by
      intro k' hk'
      simp [keysA] at hk' ⊢
      constructor
      · have := hdisj k' (by simp [keysA]; right; simpa [keysA] using hk')
        simpa [keysA] using this
      · intro hkk
        subst hkk
        obtain ⟨b, hb⟩ := hk'
        simp [keysA] at hknt
        exact absurd hb (hknt b)
    rw [ih (acc ++ [(k, ms)]) hndt hdisj']
    simp

/-- C6: persisting a valid store (unique date keys) and loading the file back
yields exactly the pruned store — the same date keys bound to the same move
lists, with out-of-retention dates removed by the persist step. -/
theorem C6_persist_roundtrip (retention : Nat) (nowOrd : Int)
    (s : List (String × List JVal)) (h : (keysA s).Nodup) :
    load_store (save_store_content retention nowOrd s) =
      _prune_old_dates retention nowOrd s := by
  simp only [load_store, save_store_content]
  rw [load_fold_serialized (_prune_old_dates retention nowOrd s) []
    (keysA_prune_nodup retention nowOrd s h) (by simp [keysA])]
  simp

/-- Witness for C6 at a concrete two-day store: the key "2024-01-01" is older
than `now − retention` (`now` = ordinal of 2025-06-01, retention 90) and is
pruned; the fresh key survives with its records. -/
theorem C6_persist_roundtrip_witness :
    (keysA [("2024-01-01", [JVal.jstr "m1"]), ("2025-05-30", [JVal.jstr "m2"])]).Nodup ∧
    load_store (save_store_content 90 739403
        [("2024-01-01", [JVal.jstr "m1"]), ("2025-05-30", [JVal.jstr "m2"])]) =
      _prune_old_dates 90 739403
        [("2024-01-01", [JVal.jstr "m1"]), ("2025-05-30", [JVal.jstr "m2"])] :=
  ⟨by decide, C6_persist_roundtrip 90 739403 _ (by decide)⟩

/-! ## Claim C7: latest terminal move wins -/

theorem lookupA_collectStep (acc : List (String × CompletedRec)) (m : Move)
    (k : String) :
    lookupA (collectStep acc m) k =
      match qualify m with
      | none => lookupA acc k
      | some r => if r.card_id = k then mergeRec (lookupA acc k) r
                  else lookupA acc k := by
  cases hq : qualify m with
  | none => simp only [collectStep, hq]
  | some r =>
    simp only [collectStep, hq]
    cases hl : lookupA acc r.card_id with
    | none =>
      by_cases hk : r.card_id = k
      · subst hk
        rw [lookupA_updA_self, hl]
        simp [mergeRec]
      · rw [lookupA_updA_ne _ _ _ _ (fun hh => hk hh.symm)]
        simp [hk]
    | some prev =>
      have hred : (match some prev with
          | none => updA acc r.card_id r
          | some prev => if prev.timestamp < r.timestamp then updA acc r.card_id r
                         else acc) =
          (if prev.timestamp < r.timestamp then updA acc r.card_id r else acc) := rfl
      rw [hred]
      by_cases hts : prev.timestamp < r.timestamp
      · rw [if_pos hts]
        by_cases hk : r.card_id = k
        · subst hk
          rw [lookupA_updA_self, hl]
          simp [mergeRec, hts]
        · rw [lookupA_updA_ne _ _ _ _ (fun hh => hk hh.symm)]
          simp [hk]
      · rw [if_neg hts]
        by_cases hk : r.card_id = k
        · subst hk
          rw [hl]
          simp [mergeRec, hts]
        · simp [hk]

theorem lookupA_collect_fold (L : List Move) :
    ∀ acc : List (String × CompletedRec), ∀ k : String,
      lookupA (L.foldl collectStep acc) k =
        ((L.filterMap qualify).filter (fun r => r.card_id = k)).foldl mergeRec
          (lookupA acc k) := by
  induction L with
  | nil => intro acc k; simp
  | cons m t ih =>
    intro acc k
    simp only [List.foldl_cons, List.filterMap_cons]
    rw [ih, lookupA_collectStep]
    cases hq : qualify m with
    | none => rfl
    | some r =>
      by_cases hk : r.card_id = k
      · simp [List.filter_cons, hk]
      · simp [List.filter_cons, hk]

theorem collectStep_keys_nodup (acc : List (String × CompletedRec)) (m : Move)
    (h : (keysA acc).Nodup) : (keysA (collectStep acc m)).Nodup := by
  cases hq : qualify m with
  | none => simpa [collectStep, hq] using h
  | some r =>
    cases hl : lookupA acc r.card_id with
    | none =>
      have hstep : collectStep acc m = updA acc r.card_id r := by
        simp [collectStep, hq, hl]
      rw [hstep]
      exact keysA_nodup_updA _ _ _ h
    | some prev =>
      by_cases hts : prev.timestamp < r.timestamp
      · have hstep : collectStep acc m = updA acc r.card_id r := by
          simp [collectStep, hq, hl, hts]
        rw [hstep]
        exact keysA_nodup_updA _ _ _ h
      · have hstep : collectStep acc m = acc := by
          simp [collectStep, hq, hl, hts]
        rw [hstep]
        exact h

theorem collect_keys_nodup (L : List Move) :
    ∀ acc : List (String × CompletedRec), (keysA acc).Nodup →
      (keysA (L.foldl collectStep acc)).Nodup := by
  induction L with
  | nil => intro acc h; simpa using h
  | cons m t ih =>
    intro acc h
    simp only [List.foldl_cons]
    exact ih _ (collectStep_keys_nodup acc m h)

theorem merge_fold_mono (R : List CompletedRec) :
    ∀ p : CompletedRec, ∃ p' : CompletedRec,
      R.foldl mergeRec (some p) = some p' ∧ p.timestamp ≤ p'.timestamp := by
  induction R with
  | nil => intro p; exact ⟨p, rfl, le_refl _⟩
  | cons r t ih =>
    intro p
    simp only [List.foldl_cons, mergeRec]
    by_cases hts : p.timestamp < r.timestamp
    · rw [if_pos hts]
      obtain ⟨p', h1, h2⟩ := ih r
      exact ⟨p', h1, le_trans (le_of_lt hts) h2⟩
    · rw [if_neg hts]
      exact ih p

theorem merge_fold_elem_bound (R : List CompletedRec) :
    ∀ r : CompletedRec, r ∈ R → ∀ o : Option CompletedRec,
      ∃ p : CompletedRec, R.foldl mergeRec o = some p ∧ r.timestamp ≤ p.timestamp := by
  induction R with
  | nil => intro r hr; simp at hr
  | cons hd t ih =>
    intro r hr o
    simp only [List.foldl_cons]
    rcases List.mem_cons.mp hr with hr | hr
    · subst hr
      cases o with
      | none =>
        simp only [mergeRec]
        exact merge_fold_mono t r
      | some p =>
        simp only [mergeRec]
        by_cases hts : p.timestamp < r.timestamp
        · rw [if_pos hts]
          exact merge_fold_mono t r
        · rw [if_neg hts]
          obtain ⟨p', h1, h2⟩ := merge_fold_mono t p
          exact ⟨p', h1, le_trans (le_of_not_lt hts) h2⟩
    · exact ih r hr _

theorem merge_fold_stay (R : List CompletedRec) :
    ∀ rm : CompletedRec, (∀ r ∈ R, r = rm ∨ r.timestamp < rm.timestamp) →
      R.foldl mergeRec (some rm) = some rm := by
  induction R with
  | nil => intro rm _; rfl
  | cons r t ih =>
    intro rm hall
    simp only [List.foldl_cons, mergeRec]
    rcases hall r (by simp) with hr | hr
    · subst hr
      rw [if_neg (lt_irrefl _)]
      exact ih r (fun x hx => hall x (by simp [hx]))
    · rw [if_neg (not_lt_of_lt hr)]
      exact ih rm (fun x hx => hall x (by simp [hx]))

theorem merge_fold_max (R : List CompletedRec) :
    ∀ rm : CompletedRec, ∀ o : Option CompletedRec, rm ∈ R →
      (∀ r ∈ R, r = rm ∨ r.timestamp < rm.timestamp) →
      (o = none ∨ ∃ q : CompletedRec, o = some q ∧
        (q = rm ∨ q.timestamp < rm.timestamp)) →
      R.foldl mergeRec o = some rm := by
  induction R with
  | nil => intro rm o hmem; simp at hmem
  | cons r t ih =>
    intro rm o hmem hall hinv
    simp only [List.foldl_cons]
    by_cases hr : r = rm
    · subst hr
      have hacc : mergeRec o r = some r := by
        rcases hinv with ho | ⟨q, ho, hq⟩
        · subst ho; rfl
        · subst ho
          simp only [mergeRec]
          rcases hq with hq | hq
          · subst hq; rw [if_neg (lt_irrefl _)]
          · rw [if_pos hq]
      rw [hacc]
      exact merge_fold_stay t r (fun x hx => hall x (by simp [hx]))
    · have hrts : r.timestamp < rm.timestamp := by
        rcases hall r (by simp) with h | h
        · exact absurd h hr
        · exact h
      have hmem' : rm ∈ t := by
        rcases List.mem_cons.mp hmem with h | h
        · exact absurd h.symm hr
        · exact h
      apply ih rm (mergeRec o r) hmem' (fun x hx => hall x (by simp [hx]))
      rcases hinv with ho | ⟨q, ho, hq⟩
      · subst ho
        exact Or.inr ⟨r, rfl, Or.inr hrts⟩
      · subst ho
        simp only [mergeRec]
        by_cases hts : q.timestamp < r.timestamp
        · rw [if_pos hts]
          exact Or.inr ⟨r, rfl, Or.inr hrts⟩
        · rw [if_neg hts]
          exact Or.inr ⟨q, rfl, hq⟩

theorem merge_rel_sync (rm : CompletedRec) (x y : Option CompletedRec)
    (z : CompletedRec)
    (h : x = y ∨ (x = some rm ∧ ∀ q : CompletedRec, y = some q →
      q.timestamp ≤ rm.timestamp))
    (hz : rm.timestamp < z.timestamp) : mergeRec x z = mergeRec y z := by
  rcases h with h | ⟨hx, hy⟩
  · rw [h]
  · subst hx
    simp only [mergeRec, if_pos hz]
    cases y with
    | none => rfl
    | some q =>
      have hq := hy q rfl
      simp only [mergeRec]
      rw [if_pos (lt_of_le_of_lt hq hz)]

theorem merge_rel_step (rm : CompletedRec) (x y : Option CompletedRec)
    (z : CompletedRec)
    (h : x = y ∨ (x = some rm ∧ ∀ q : CompletedRec, y = some q →
      q.timestamp ≤ rm.timestamp)) :
    mergeRec x z = mergeRec y z ∨
      (mergeRec x z = some rm ∧ ∀ q : CompletedRec, mergeRec y z = some q →
        q.timestamp ≤ rm.timestamp) := by
  rcases h with h | ⟨hx, hy⟩
  · left; rw [h]
  · by_cases hz : rm.timestamp < z.timestamp
    · left
      exact merge_rel_sync rm x y z (Or.inr ⟨hx, hy⟩) hz
    · right
      subst hx
      refine ⟨by simp [mergeRec, hz], ?_⟩
      intro q hq
      cases y with
      | none =>
        simp only [mergeRec, Option.some.injEq] at hq
        rw [← hq]
        exact le_of_not_lt hz
      | some p =>
        have hp := hy p rfl
        simp only [mergeRec] at hq
        by_cases hpz : p.timestamp < z.timestamp
        · rw [if_pos hpz] at hq
          injection hq with hq
          rw [← hq]
          exact le_of_not_lt hz
        · rw [if_neg hpz] at hq
          injection hq with hq
          rw [← hq]
          exact hp

theorem merge_fold_rel_eq (rm : CompletedRec) (R : List CompletedRec) :
    ∀ x y : Option CompletedRec,
      (x = y ∨ (x = some rm ∧ ∀ q : CompletedRec, y = some q →
        q.timestamp ≤ rm.timestamp)) →
      (∃ r' ∈ R, rm.timestamp < r'.timestamp) →
      R.foldl mergeRec x = R.foldl mergeRec y := by
  induction R with
  | nil => intro x y _ hex; simp at hex
  | cons r t ih =>
    intro x y h hex
    simp only [List.foldl_cons]
    by_cases hr : rm.timestamp < r.timestamp
    · rw [merge_rel_sync rm x y r h hr]
    · obtain ⟨r', hmem, hts⟩ := hex
      have hr't : r' ∈ t := by
        rcases List.mem_cons.mp hmem with hh | hh
        · exact absurd (hh ▸ hts) hr
        · exact hh
      exact ih _ _ (merge_rel_step rm x y r h) ⟨r', hr't, hts⟩

/-- Inserting a record that some later or earlier record of the list strictly
dominates (larger timestamp) does not change the running-maximum fold. -/
theorem dominated_merge (R₁ R₂ : List CompletedRec) (rm : CompletedRec)
    (o : Option CompletedRec)
    (hex : ∃ r' ∈ R₁ ++ R₂, rm.timestamp < r'.timestamp) :
    (R₁ ++ rm :: R₂).foldl mergeRec o = (R₁ ++ R₂).foldl mergeRec o := by
  rw [List.foldl_append, List.foldl_append, List.foldl_cons]
  rcases hex with ⟨r', hmem, hts⟩
  rcases List.mem_append.mp hmem with h1 | h2
  · obtain ⟨p, hp, hple⟩ := merge_fold_elem_bound R₁ r' h1 o
    rw [hp]
    have hkeep : mergeRec (some p) rm = some p := by
      simp only [mergeRec]
      rw [if_neg (not_lt_of_lt (lt_of_lt_of_le hts hple))]
    rw [hkeep]
  · apply merge_fold_rel_eq rm R₂ _ _ _ ⟨r', h2, hts⟩
    cases ho : R₁.foldl mergeRec o with
    | none =>
      refine Or.inr ⟨rfl, ?_⟩
      intro q hq
      simp at hq
    | some p =>
      by_cases hpm : p.timestamp < rm.timestamp
      · refine Or.inr ⟨by simp [mergeRec, hpm], ?_⟩
        intro q hq
        injection hq with hq
        rw [← hq]
        exact le_of_lt hpm
      · left
        simp [mergeRec, hpm]

theorem lookupA_append {β : Type} (A B : List (String × β)) (k : String) :
    lookupA (A ++ B) k =
      match lookupA A k with
      | some v => some v
      | none => lookupA B k := by
  induction A with
  | nil => simp [lookupA]
  | cons hd t ih =>
    obtain ⟨k1, v1⟩ := hd
    by_cases hk : k1 = k
    · simp [lookupA, hk]
    · simp only [List.cons_append, lookupA, if_neg hk]
      exact ih

theorem lookupA_split {β : Type} (l : List (String × β)) (k : String) (v : β) :
    lookupA l k = some v →
      ∃ A B : List (String × β), l = A ++ (k, v) :: B ∧ k ∉ keysA A := by
  induction l with
  | nil => intro h; simp [lookupA] at h
  | cons hd t ih =>
    intro h
    obtain ⟨k1, v1⟩ := hd
    by_cases hk : k1 = k
    · subst hk
      simp only [lookupA, if_pos rfl] at h
      injection h with h
      subst h
      exact ⟨[], t, rfl, by simp [keysA]⟩
    · simp only [lookupA, if_neg hk] at h
      obtain ⟨A, B, hAB, hkA⟩ := ih h
      refine ⟨(k1, v1) :: A, B, by rw [hAB]; rfl, ?_⟩
      simp [keysA] at hkA ⊢
      exact ⟨fun he => hk he.symm, hkA⟩

theorem assoc_perm {β : Type} (l₁ : List (String × β)) :
    ∀ l₂ : List (String × β), (keysA l₁).Nodup → (keysA l₂).Nodup →
      (∀ k : String, lookupA l₁ k = lookupA l₂ k) → l₁.Perm l₂ := by
  induction l₁ with
  | nil =>
    intro l₂ _ _ h
    cases l₂ with
    | nil => exact List.Perm.refl _
    | cons hd t =>
      exfalso
      have hh := (h hd.1).symm
      obtain ⟨k1, v1⟩ := hd
      simp [lookupA] at hh
  | cons hd t₁ ih =>
    intro l₂ h₁ h₂ h
    obtain ⟨k, v⟩ := hd
    have hndk : k ∉ keysA t₁ ∧ (keysA t₁).Nodup :=
      ⟨(List.nodup_cons.mp h₁).1, (List.nodup_cons.mp h₁).2⟩
    have hl₂ : lookupA l₂ k = some v := by
      have hh := (h k).symm
      simpa [lookupA] using hh
    obtain ⟨A, B, hAB, hkA⟩ := lookupA_split l₂ k v hl₂
    have hkeys₂ : keysA l₂ = keysA A ++ k :: keysA B := by
      rw [hAB]; simp [keysA]
    have hkB : k ∉ keysA B := by
      rw [hkeys₂] at h₂
      have := (List.nodup_append.mp h₂).2.1
      exact (List.nodup_cons.mp this).1
    have hndAB : (keysA (A ++ B)).Nodup := by
      rw [hkeys₂] at h₂
      have : (keysA A ++ k :: keysA B).Sublist (keysA A ++ k :: keysA B) :=
        List.Sublist.refl _
      have hsub : (keysA A ++ keysA B).Sublist (keysA A ++ k :: keysA B) :=
        List.Sublist.append_left (List.sublist_cons_of_sublist k (List.Sublist.refl _)) _
      have := h₂.sublist hsub
      simpa [keysA] using this
    have hlook : ∀ k' : String, lookupA t₁ k' = lookupA (A ++ B) k' := by
      intro k'
      by_cases hk' : k' = k
      · subst hk'
        rw [(lookupA_eq_none_iff t₁ k').mpr hndk.1]
        rw [lookupA_append]
        rw [(lookupA_eq_none_iff A k').mpr hkA]
        rw [(lookupA_eq_none_iff B k').mpr hkB]
      · have hh := h k'
        rw [show lookupA ((k, v) :: t₁) k' = lookupA t₁ k' from by
          simp [lookupA, if_neg (Ne.symm hk')]] at hh
        rw [hh, hAB, lookupA_append, lookupA_append]
        cases lookupA A k' with
        | some w => rfl
        | none =>
          simp only [lookupA, if_neg (Ne.symm hk')]
    have hperm : ((k, v) :: t₁).Perm ((k, v) :: (A ++ B)) :=
      (ih (A ++ B) hndk.2 hndAB hlook).cons (k, v)
    rw [hAB]
    exact hperm.trans List.perm_middle.symm

theorem bump_comm (p : Pair) (w1 w2 : Bool) :
    bump (bump p w1) w2 = bump (bump p w2) w1 := by
  cases w1 <;> cases w2 <;> simp [bump]

theorem monthAcc_ext (a b : MonthAcc)
    (h1 : a.accepted_total = b.accepted_total)
    (h2 : a.m_personal = b.m_personal) (h3 : a.m_mfc = b.m_mfc)
    (h4 : a.m_epgu = b.m_epgu) (h5 : a.m_rpgu = b.m_rpgu)
    (h6 : a.positive = b.positive) (h7 : a.refusals = b.refusals) : a = b := by
  cases a; cases b; simp_all

theorem statStep_m_personal (a : MonthAcc) (r : CompletedRec) :
    (statStep a r).m_personal =
      if r.submission_method = SUBM_RPGU then a.m_personal
      else if (if r.submission_method = SUBM_PERSONAL ∨
          r.submission_method = SUBM_MFC ∨ r.submission_method = SUBM_EPGU ∨
          r.submission_method = SUBM_RPGU then r.submission_method
          else SUBM_EPGU) = SUBM_PERSONAL then
        bump a.m_personal (r.person_type = PERSON_PHYS)
      else a.m_personal := by
  simp only [statStep]
  split_ifs <;> first | rfl | simp_all

theorem statStep_m_mfc (a : MonthAcc) (r : CompletedRec) :
    (statStep a r).m_mfc =
      if r.submission_method = SUBM_RPGU then a.m_mfc
      else if (if r.submission_method = SUBM_PERSONAL ∨
          r.submission_method = SUBM_MFC ∨ r.submission_method = SUBM_EPGU ∨
          r.submission_method = SUBM_RPGU then r.submission_method
          else SUBM_EPGU) = SUBM_PERSONAL then a.m_mfc
      else if (if r.submission_method = SUBM_PERSONAL ∨
          r.submission_method = SUBM_MFC ∨ r.submission_method = SUBM_EPGU ∨
          r.submission_method = SUBM_RPGU then r.submission_method
          else SUBM_EPGU) = SUBM_MFC then
        bump a.m_mfc (r.person_type = PERSON_PHYS)
      else a.m_mfc := by
  simp only [statStep]
  split_ifs <;> first | rfl | simp_all

theorem statStep_m_epgu (a : MonthAcc) (r : CompletedRec) :
    (statStep a r).m_epgu =
      if r.submission_method = SUBM_RPGU then a.m_epgu
      else if (if r.submission_method = SUBM_PERSONAL ∨
          r.submission_method = SUBM_MFC ∨ r.submission_method = SUBM_EPGU ∨
          r.submission_method = SUBM_RPGU then r.submission_method
          else SUBM_EPGU) = SUBM_PERSONAL then a.m_epgu
      else if (if r.submission_method = SUBM_PERSONAL ∨
          r.submission_method = SUBM_MFC ∨ r.submission_method = SUBM_EPGU ∨
          r.submission_method = SUBM_RPGU then r.submission_method
          else SUBM_EPGU) = SUBM_MFC then a.m_epgu
      else if (if r.submission_method = SUBM_PERSONAL ∨
          r.submission_method = SUBM_MFC ∨ r.submission_method = SUBM_EPGU ∨
          r.submission_method = SUBM_RPGU then r.submission_method
          else SUBM_EPGU) = SUBM_RPGU then a.m_epgu
      else bump a.m_epgu (r.person_type = PERSON_PHYS) := by
  simp only [statStep]
  split_ifs <;> first | rfl | simp_all

set_option maxHeartbeats 2000000 in
theorem statStep_comm (a : MonthAcc) (r1 r2 : CompletedRec) :
    statStep (statStep a r1) r2 = statStep (statStep a r2) r1 := by
  refine monthAcc_ext _ _ ?_ ?_ ?_ ?_ ?_ ?_ ?_
  · simp only [statStep_accepted_total]
    apply bump_comm
  · simp only [statStep_m_personal]
    split_ifs <;> first | rfl | apply bump_comm
  · simp only [statStep_m_mfc]
    split_ifs <;> first | rfl | apply bump_comm
  · simp only [statStep_m_epgu]
    split_ifs <;> first | rfl | apply bump_comm
  · simp only [statStep_m_rpgu]
  · simp only [statStep_positive]
    split_ifs <;> first | rfl | apply bump_comm
  · simp only [statStep_refusals]
    split_ifs <;> first | rfl | apply bump_comm

theorem foldl_statStep_perm (l1 l2 : List CompletedRec) (h : l1.Perm l2) :
    ∀ a : MonthAcc, l1.foldl statStep a = l2.foldl statStep a := by
  induction h with
  | nil => intro a; rfl
  | cons x _ ih =>
    intro a
    simp only [List.foldl_cons]
    exact ih _
  | swap x y t =>
    intro a
    simp only [List.foldl_cons]
    rw [statStep_comm]
  | trans _ _ ih1 ih2 =>
    intro a
    rw [ih1, ih2]

theorem collect_lookup_drop_dominated (P Q : List Move) (m : Move)
    (rm : CompletedRec) (hq : qualify m = some rm)
    (hex : ∃ m' ∈ P ++ Q, ∃ r' : CompletedRec, qualify m' = some r' ∧
      r'.card_id = rm.card_id ∧ rm.timestamp < r'.timestamp) :
    ∀ k : String, lookupA ((P ++ m :: Q).foldl collectStep []) k =
      lookupA ((P ++ Q).foldl collectStep []) k := by
  intro k
  rw [lookupA_collect_fold, lookupA_collect_fold]
  simp only [List.filterMap_append, List.filterMap_cons, hq, List.filter_append,
    List.filter_cons]
  by_cases hk : rm.card_id = k
  · simp only [hk, decide_True, if_true]
    apply dominated_merge
    obtain ⟨m', hm', r', hq', hc', hts'⟩ := hex
    refine ⟨r', ?_, hts'⟩
    have hr'mem : ∀ S : List Move, m' ∈ S →
        r' ∈ (S.filterMap qualify).filter (fun r => r.card_id = k) := by
      intro S hS
      exact List.mem_filter.mpr ⟨List.mem_filterMap.mpr ⟨m', hS, hq'⟩,
        by simp [hc', hk]⟩
    rcases List.mem_append.mp hm' with h | h
    · exact List.mem_append.mpr (Or.inl (hr'mem P h))
    · exact List.mem_append.mpr (Or.inr (hr'mem Q h))
  · simp [hk]

/-- C7: in the monthly roll-up, per unit-of-work identity, exactly the
terminal move with the latest timestamp is retained and classified (part 1:
when one terminal move of the identity strictly dominates all others, the
collected record for that identity is its record); and a terminal move that
is strictly dominated by another terminal move of the same identity does not
affect the resulting StatsTable (part 2: deleting it from its day bucket
leaves `compute_month_like_stats` unchanged). -/
theorem C7_latest_terminal_wins (store : Int → List Move) (start e : Int)
    (c : String) :
    (∀ m : Move, m ∈ movesInRange store start e → ∀ rm : CompletedRec,
      qualify m = some rm → rm.card_id = c →
      (∀ m' : Move, m' ∈ movesInRange store start e → ∀ r' : CompletedRec,
        qualify m' = some r' → r'.card_id = c →
        r' = rm ∨ r'.timestamp < rm.timestamp) →
      lookupA (_collect_completed_last_event store start e) c = some rm) ∧
    (∀ (dd : Int) (m : Move) (rm : CompletedRec) (store' : Int → List Move),
      start ≤ dd → dd ≤ e → m ∈ store dd →
      qualify m = some rm → rm.card_id = c →
      store' dd = (store dd).erase m →
      (∀ d : Int, d ≠ dd → store' d = store d) →
      (∃ m' ∈ movesInRange store' start e, ∃ r' : CompletedRec,
        qualify m' = some r' ∧ r'.card_id = c ∧ rm.timestamp < r'.timestamp) →
      compute_month_like_stats store' start e =
        compute_month_like_stats store start e) := by
  constructor
  · intro m hm rm hq hc hmax
    unfold _collect_completed_last_event
    rw [lookupA_collect_fold]
    apply merge_fold_max
    · exact List.mem_filter.mpr ⟨List.mem_filterMap.mpr ⟨m, hm, hq⟩, by simp [hc]⟩
    · intro r hr
      have hr' := List.mem_filter.mp hr
      obtain ⟨m', hm', hq'⟩ := List.mem_filterMap.mp hr'.1
      have hcr : r.card_id = c := by simpa using hr'.2
      exact hmax m' hm' r hq' hcr
    · exact Or.inl rfl
  · intro dd m rm store' hdd1 hdd2 hm hq hc hs1 hs2 hex
    have hmemdays : dd ∈ (List.range (e + 1 - start).toNat).map
        (fun i : Nat => start + (i : Int)) := by
      rw [List.mem_map]
      refine ⟨(dd - start).toNat, ?_, ?_⟩
      · rw [List.mem_range]
        omega
      · show start + ((dd - start).toNat : Int) = dd
        omega
    obtain ⟨D1, D2, hdays⟩ := List.append_of_mem hmemdays
    have hinj : Function.Injective (fun i : Nat => start + (i : Int)) := by
      intro i j hij
      have h2 : start + (i : Int) = start + (j : Int) := hij
      omega
    have hnd : (((List.range (e + 1 - start).toNat).map
        (fun i : Nat => start + (i : Int)))).Nodup :=
      List.Nodup.map hinj (List.nodup_range _)
    rw [hdays] at hnd
    have hsplit := List.nodup_append.mp hnd
    have hddD1 : dd ∉ D1 := fun hmem1 => hsplit.2.2 hmem1 (by simp)
    have hddD2 : dd ∉ D2 := (List.nodup_cons.mp hsplit.2.1).1
    obtain ⟨B1, B2, hmB1, hBsplit, hBerase⟩ := List.exists_erase_eq hm
    have hL : movesInRange store start e =
        (D1.flatMap store ++ B1) ++ m :: (B2 ++ D2.flatMap store) := by
      unfold movesInRange
      rw [hdays]
      simp only [List.flatMap_append, List.flatMap_cons]
      rw [hBsplit]
      simp [List.append_assoc]
    have hD1 : D1.flatMap store' = D1.flatMap store :=
      List.flatMap_congr (fun d hd => hs2 d (fun he => hddD1 (he ▸ hd)))
    have hD2 : D2.flatMap store' = D2.flatMap store :=
      List.flatMap_congr (fun d hd => hs2 d (fun he => hddD2 (he ▸ hd)))
    have hL' : movesInRange store' start e =
        (D1.flatMap store ++ B1) ++ (B2 ++ D2.flatMap store) := by
      unfold movesInRange
      rw [hdays]
      simp only [List.flatMap_append, List.flatMap_cons]
      rw [hD1, hD2, hs1, hBerase]
      simp [List.append_assoc]
    rw [hL'] at hex
    have hlook : ∀ k : String,
        lookupA ((movesInRange store' start e).foldl collectStep []) k =
          lookupA ((movesInRange store start e).foldl collectStep []) k := by
      intro k
      rw [hL, hL']
      refine (collect_lookup_drop_dominated _ _ m rm hq ?_ k).symm
      obtain ⟨m', hm', r', hq', hc', hts'⟩ := hex
      exact ⟨m', hm', r', hq', by rw [hc', hc], hts'⟩
    have hnd1 : (keysA ((movesInRange store' start e).foldl collectStep [])).Nodup :=
      collect_keys_nodup _ [] (by simp [keysA])
    have hnd2 : (keysA ((movesInRange store start e).foldl collectStep [])).Nodup :=
      collect_keys_nodup _ [] (by simp [keysA])
    have hperm := assoc_perm _ _ hnd1 hnd2 hlook
    have haccs := foldl_statStep_perm _ _ (hperm.map Prod.snd) zeroMonthAcc
    simp only [compute_month_like_stats, _collect_completed_last_event]
    rw [haccs]

/-- Witness for C7: removing the dominated earlier terminal move of card "7"
from its day bucket leaves the monthly table unchanged. -/
theorem C7_latest_terminal_wins_witness :
    qualify mvEarly = some recEarly ∧
    recEarly.timestamp < recLate.timestamp ∧
    compute_month_like_stats storeW2 0 0 = compute_month_like_stats storeW 0 0 := by
  have hts : recEarly.timestamp < recLate.timestamp :=
    String.lt_iff_toList_lt.mpr
      (by decide : recEarly.timestamp.toList < recLate.timestamp.toList)
  refine ⟨rfl, hts, ?_⟩
  exact (C7_latest_terminal_wins storeW 0 0 "7").2 0 mvEarly recEarly storeW2
    (le_refl 0) (le_refl 0) (by decide) rfl rfl (by decide)
    (fun d hd => by simp [storeW, storeW2, hd])
    ⟨mvLate, by decide, recLate, rfl, rfl, hts⟩
